import Mathlib

/-!
Verification of the per-diem backend catalog pipeline: a shallow embedding of
the Square catalog transformer (`square-catalog.transformer.ts`), the pagination
aggregator (`pagination.ts`), the memory cache provider (`cache.service.ts`),
the catalog/categories route handlers and the webhook invalidation handler,
together with theorems settling the specification claims about them.

Modelling conventions:
- JavaScript optional / possibly-undefined fields become `Option`.
- JavaScript string truthiness (`undefined` and `""` are falsy) is modelled by
  `truthyStr`.
- JavaScript `Map` (insertion-ordered, `set` overwrites in place) is modelled by
  an association list with `mapSet` / `mapGet`.
- `String.prototype.localeCompare` under the default host collation is modelled
  by `localeCompare*`, fixed here to code-point order: a representative
  consistent total order, so every sortedness statement is relative to it.
- `Array.prototype.sort` (stable since ES2019) is modelled by
  `List.insertionSort`, which is stable in the same orientation.
- Asynchronous fallible calls become `Except`; time (`Date.now()`) becomes an
  explicit millisecond parameter.
-/

namespace PerDiem

/-- JavaScript truthiness of an optional string: `undefined` and `""` are falsy. -/
def truthyStr : Option String → Bool
  | none => false
  | some s => s ≠ ""

/-- Code-point comparison of character lists; the model of the host collation. -/
def charsLe : List Char → List Char → Bool
  | [], _ => true
  | _ :: _, [] => false
  | c :: cs, d :: ds =>
      if c.toNat < d.toNat then true
      else if d.toNat < c.toNat then false
      else charsLe cs ds

/-- Models `a.localeCompare(b) <= 0` under the host default collation,
fixed to code-point order for this development. -/
def localeCompareLe (a b : String) : Bool := charsLe a.data b.data

/-- Character-list prefix test (fully reducible). -/
def beginsWith : List Char → List Char → Bool
  | [], _ => true
  | _ :: _, [] => false
  | c :: cs, d :: ds => c == d && beginsWith cs ds

/-- Models `s.startsWith(p)`. -/
def strBeginsWith (s p : String) : Bool := beginsWith p.data s.data

-- ── JavaScript Map model (insertion-ordered association list) ──

/-- `Map.prototype.set`: overwrite in place when the key exists, else append. -/
def mapSet {α : Type} : List (String × α) → String → α → List (String × α)
  | [], k, v => [(k, v)]
  | (k2, v2) :: rest, k, v =>
      if k2 = k then (k, v) :: rest else (k2, v2) :: mapSet rest k v

/-- `Map.prototype.get`: first (hence unique) binding of the key. -/
def mapGet {α : Type} : List (String × α) → String → Option α
  | [], _ => none
  | (k2, v2) :: rest, k => if k2 = k then some v2 else mapGet rest k

-- ── Square API data model (shared-types package) ──

structure SquareMoney where
  amount : Nat
  currency : String
deriving DecidableEq, Repr

structure SquareItemVariationData where
  name : String
  pricing_type : String
  price_money : Option SquareMoney
deriving DecidableEq, Repr

structure SquareCatalogVariation where
  id : String
  item_variation_data : SquareItemVariationData
deriving DecidableEq, Repr

structure SquareImageData where
  url : String
  caption : Option String
deriving DecidableEq, Repr

structure SquareCatalogImage where
  id : String
  image_data : SquareImageData
deriving DecidableEq, Repr

/-- Category payload. The transformer reads an optional `category_type`
discriminator from the raw payload (absent from the declared interface but
present on the wire), so it is part of the embedded shape. -/
structure SquareCategoryData where
  name : String
  category_type : Option String
deriving DecidableEq, Repr

structure SquareCatalogCategory where
  id : String
  category_data : SquareCategoryData
deriving DecidableEq, Repr

structure SquareItemData where
  name : String
  description : Option String
  category_id : Option String
  image_ids : Option (List String)
  variations : Option (List SquareCatalogVariation)
deriving DecidableEq, Repr

structure SquareCatalogItem where
  id : String
  present_at_all_locations : Option Bool
  present_at_location_ids : Option (List String)
  item_data : SquareItemData
deriving DecidableEq, Repr

/-- The tagged union `SquareCatalogObject` (`type` field becomes the tag). -/
inductive SquareCatalogObject : Type
  | item (i : SquareCatalogItem)
  | category (c : SquareCatalogCategory)
  | image (img : SquareCatalogImage)
  | variation (v : SquareCatalogVariation)
deriving DecidableEq, Repr

/-- TypeScript narrowing `obj.type === 'ITEM'` used by the route handlers. -/
def asItem : SquareCatalogObject → Option SquareCatalogItem
  | .item i => some i
  | _ => none

-- ── Derived output types (shared-types package) ──

structure Category where
  id : String
  name : String
  item_count : Nat
deriving DecidableEq, Repr

structure MenuItemVariation where
  id : String
  name : String
  priceDollars : ℚ
  priceFormatted : String
deriving DecidableEq, Repr

structure MenuItem where
  id : String
  name : String
  description : Option String
  category : String
  image_url : Option String
  variations : List MenuItemVariation
deriving DecidableEq, Repr

structure CategoryGroup where
  category : String
  categoryId : String
  items : List MenuItem
deriving DecidableEq, Repr

/-- Ascending order of `Category` records by display name, as produced by
`categories.sort((a, b) => a.name.localeCompare(b.name))`. -/
def catLe (a b : Category) : Prop := localeCompareLe a.name b.name = true

/-- Ascending order of `CategoryGroup` records by display name, as produced by
`categoryGroups.sort((a, b) => a.category.localeCompare(b.category))`. -/
def groupLe (a b : CategoryGroup) : Prop :=
  localeCompareLe a.category b.category = true

instance : DecidableRel catLe := fun a b => by
  unfold catLe; infer_instance

instance : DecidableRel groupLe := fun a b => by
  unfold groupLe; infer_instance

-- ── Transformer: square-catalog.transformer.ts ──

/-- The kind test used everywhere in the transformer:
`!category.category_data.category_type || category_type === 'REGULAR_CATEGORY'`
(note JavaScript truthiness: an absent or empty `category_type` passes). -/
def regularKindCheck (c : SquareCatalogCategory) : Bool :=
  !truthyStr c.category_data.category_type
    || c.category_data.category_type == some "REGULAR_CATEGORY"

/-- Step 1 of `extractCategoriesFromRelatedObjects`: the category lookup map
(later qualifying objects with the same id overwrite earlier ones). -/
def buildCategoryMap (relatedObjects : List SquareCatalogObject) :
    List (String × String) :=
  relatedObjects.foldl
    (fun m obj =>
      match obj with
      | .category c =>
          if regularKindCheck c then mapSet m c.id c.category_data.name else m
      | _ => m)
    []

/-- Step 2 of `extractCategoriesFromRelatedObjects`: per-category item counts
(`if (categoryId)` skips absent and empty references). -/
def countCategoryRefs (items : List SquareCatalogItem) : List (String × Nat) :=
  items.foldl
    (fun m item =>
      match item.item_data.category_id with
      | some cid =>
          if cid ≠ "" then mapSet m cid ((mapGet m cid).getD 0 + 1) else m
      | none => m)
    []

/-- `extractCategoriesFromRelatedObjects(relatedObjects, items)`. -/
def extractCategoriesFromRelatedObjects
    (relatedObjects : List SquareCatalogObject)
    (items : List SquareCatalogItem) : List Category :=
  let categoryMap := buildCategoryMap relatedObjects
  let categoryCounts := countCategoryRefs items
  let categories : List Category :=
    categoryCounts.map
      (fun p =>
        match mapGet categoryMap p.1 with
        | some name =>
            if name ≠ "" then ⟨p.1, name, p.2⟩
            else ⟨p.1, "Unknown Category", p.2⟩
        | none => ⟨p.1, "Unknown Category", p.2⟩)
  List.insertionSort catLe categories

/-- `findCategoryName(categoryId, relatedObjects)`: first category object whose
id matches and whose kind passes `regularKindCheck`; a matching id with a
non-qualifying kind does not stop the scan. -/
def findCategoryName (categoryId : String) :
    List SquareCatalogObject → Option String
  | [] => none
  | .category c :: rest =>
      if c.id = categoryId then
        if regularKindCheck c then some c.category_data.name
        else findCategoryName categoryId rest
      else findCategoryName categoryId rest
  | _ :: rest => findCategoryName categoryId rest

/-- `filterItemsByLocation(items, locationId)`. -/
def filterItemsByLocation (items : List SquareCatalogItem)
    (locationId : String) : List SquareCatalogItem :=
  items.filter
    (fun item =>
      item.present_at_all_locations == some true
        || (item.present_at_location_ids.getD []).contains locationId)

/-- `findImageUrl(imageId, relatedObjects)`. -/
def findImageUrl (imageId : String) : List SquareCatalogObject → Option String
  | [] => none
  | .image img :: rest =>
      if img.id = imageId then some img.image_data.url
      else findImageUrl imageId rest
  | _ :: rest => findImageUrl imageId rest

/-- Zero-padded two-digit rendering of a value below 100. -/
def twoDigits (n : Nat) : String :=
  if n < 10 then "0" ++ toString n else toString n

/-- `formatPrice(cents)`: the code computes `(cents / 100).toFixed(2)` on a
JavaScript float; for integer cent amounts in the exactly-representable range
that renders precisely the two-decimal expansion of `cents / 100`, embedded
here with integer arithmetic. -/
def formatPrice (cents : Nat) : String :=
  "$" ++ toString (cents / 100) ++ "." ++ twoDigits (cents % 100)

/-- The variation mapping inside `transformCatalogItem`. -/
def transformVariation (v : SquareCatalogVariation) : MenuItemVariation :=
  let amount := ((v.item_variation_data.price_money.map SquareMoney.amount).getD 0)
  { id := v.id
    name := v.item_variation_data.name
    priceDollars := (amount : ℚ) / 100
    priceFormatted := formatPrice amount }

/-- `transformCatalogItem(item, relatedObjects)`.  The category branch guards
with truthiness (`item.item_data.category_id ? ... : 'Uncategorized'`) and uses
nullish coalescing on the lookup result, so an empty resolved name survives. -/
def transformCatalogItem (item : SquareCatalogItem)
    (relatedObjects : List SquareCatalogObject) : MenuItem :=
  let categoryName :=
    match item.item_data.category_id with
    | some cid =>
        if cid ≠ "" then (findCategoryName cid relatedObjects).getD "Uncategorized"
        else "Uncategorized"
    | none => "Uncategorized"
  let imageUrl :=
    match (item.item_data.image_ids.getD []).head? with
    | some iid => if iid ≠ "" then findImageUrl iid relatedObjects else none
    | none => none
  { id := item.id
    name := item.item_data.name
    description := item.item_data.description
    category := categoryName
    image_url := imageUrl
    variations := (item.item_data.variations.getD []).map transformVariation }

/-- The grouping loop of `groupItemsByCategory`: items pushed onto the list
bound to their category name in an insertion-ordered map. -/
def groupMenuItems (menuItems : List MenuItem) : List (String × List MenuItem) :=
  menuItems.foldl
    (fun m mi => mapSet m mi.category ((mapGet m mi.category).getD [] ++ [mi]))
    []

/-- The category-id search loop of `groupItemsByCategory`: first category whose
kind passes `regularKindCheck` and whose name equals the group name; the final
`categoryId || 'uncategorized'` turns an empty found id into the sentinel. -/
def findGroupCategoryId (categoryName : String) :
    List SquareCatalogObject → String
  | [] => "uncategorized"
  | .category c :: rest =>
      if regularKindCheck c && c.category_data.name == categoryName then
        (if c.id = "" then "uncategorized" else c.id)
      else findGroupCategoryId categoryName rest
  | _ :: rest => findGroupCategoryId categoryName rest

/-- `groupItemsByCategory(items, relatedObjects)`. -/
def groupItemsByCategory (items : List SquareCatalogItem)
    (relatedObjects : List SquareCatalogObject) : List CategoryGroup :=
  let menuItems := items.map (fun item => transformCatalogItem item relatedObjects)
  let grouped := groupMenuItems menuItems
  let categoryGroups : List CategoryGroup :=
    grouped.map
      (fun p =>
        { category := p.1
          categoryId := findGroupCategoryId p.1 relatedObjects
          items := p.2 })
  List.insertionSort groupLe categoryGroups

-- ── Pagination aggregator: pagination.ts ──

/-- One page of a paginated Square response, as the fetcher returns it. -/
structure SquarePage (T : Type) where
  objects : Option (List T)
  cursor : Option String

/-- `MAX_PAGES` safety limit of `aggregateSquarePages`. -/
def MAX_PAGES : Nat := 10

/-- The `do ... while (cursor)` loop of `aggregateSquarePages`.  The fetcher is
indexed by the 1-based call number (it is a stateful closure in the code) and
receives the cursor the loop passes; a thrown exception becomes `Except.error`
and the `catch` block rethrows it.  Returns the accumulated objects together
with the number of fetcher invocations (the `pageNumber - 1` the code logs). -/
def aggGo {ε T : Type} (fetcher : Nat → Option String → Except ε (SquarePage T))
    (cursor : Option String) (pageNumber : Nat) (acc : List T) :
    Except ε (List T × Nat) :=
  match fetcher pageNumber cursor with
  | .error e => .error e
  | .ok result =>
      let acc2 := acc ++ result.objects.getD []
      if _h : pageNumber + 1 > MAX_PAGES then .ok (acc2, pageNumber)
      else if truthyStr result.cursor then
        aggGo fetcher result.cursor (pageNumber + 1) acc2
      else .ok (acc2, pageNumber)
termination_by MAX_PAGES + 1 - pageNumber
decreasing_by simp only [MAX_PAGES] at *; omega

/-- `aggregateSquarePages(fetcher)`: the aggregated object list. -/
def aggregateSquarePages {ε T : Type}
    (fetcher : Nat → Option String → Except ε (SquarePage T)) :
    Except ε (List T) :=
  (aggGo fetcher none 1 []).map Prod.fst

/-- The number of fetcher invocations `aggregateSquarePages(fetcher)` performs
(second component of the loop result). -/
def aggregateSquarePagesCalls {ε T : Type}
    (fetcher : Nat → Option String → Except ε (SquarePage T)) :
    Except ε Nat :=
  (aggGo fetcher none 1 []).map Prod.snd

-- ── Cache provider: cache.service.ts (MemoryCacheProvider) ──

/-- One live entry of the node-cache backed store: key, value and the absolute
expiry timestamp in milliseconds (`Date.now() + ttlSeconds * 1000`). -/
structure CacheEntry (V : Type) where
  key : String
  value : V
  expiresAt : Nat
deriving DecidableEq, Repr

/-- The `MemoryCacheProvider` store. -/
structure MemoryCache (V : Type) where
  entries : List (CacheEntry V)
deriving DecidableEq, Repr

/-- `get(key)` at time `now`: the stored value while `now` has not passed the
expiry timestamp, `null` (here `none`) on miss or after expiry. -/
def cacheGet {V : Type} (c : MemoryCache V) (key : String) (now : Nat) :
    Option V :=
  match c.entries.find? (fun e => e.key == key) with
  | some e => if now ≤ e.expiresAt then some e.value else none
  | none => none

/-- `set(key, value, ttlSeconds)` at time `now`: overwrites unconditionally. -/
def cacheSet {V : Type} (c : MemoryCache V) (key : String) (v : V)
    (ttlSeconds : Nat) (now : Nat) : MemoryCache V :=
  ⟨⟨key, v, now + ttlSeconds * 1000⟩ :: c.entries.filter (fun e => e.key ≠ key)⟩

/-- `clear(prefix?)`: without a truthy prefix `flushAll`, otherwise delete
exactly the keys starting with the prefix (a no-op when none match). -/
def cacheClear {V : Type} (c : MemoryCache V) (pfx : Option String) :
    MemoryCache V :=
  match pfx with
  | none => ⟨[]⟩
  | some p =>
      if p = "" then ⟨[]⟩
      else ⟨c.entries.filter (fun e => !(strBeginsWith e.key p))⟩

/-- `buildCacheKey(...parts)`: parts joined with a colon. -/
def buildCacheKey (parts : List String) : String :=
  String.intercalate ":" parts

-- ── Route handlers: catalog (part of the repository sources), categories ──

/-- `SquareSearchCatalogResponse` as the routes consume it. -/
structure SquareSearchCatalogResponse where
  objects : Option (List SquareCatalogObject)
  related_objects : Option (List SquareCatalogObject)
  cursor : Option String

/-- The pagination loop as instantiated by the catalog and categories routes:
`aggregateSquarePages` over a closure that additionally accumulates
`related_objects` from every successful page.  Returns the aggregated objects
and the accumulated related objects. -/
def searchGo {ε : Type}
    (client : Nat → Option String → Except ε SquareSearchCatalogResponse)
    (cursor : Option String) (pageNumber : Nat)
    (accObjs accRel : List SquareCatalogObject) :
    Except ε (List SquareCatalogObject × List SquareCatalogObject) :=
  match client pageNumber cursor with
  | .error e => .error e
  | .ok response =>
      let accRel2 := accRel ++ response.related_objects.getD []
      let accObjs2 := accObjs ++ response.objects.getD []
      if _h : pageNumber + 1 > MAX_PAGES then .ok (accObjs2, accRel2)
      else if truthyStr response.cursor then
        searchGo client response.cursor (pageNumber + 1) accObjs2 accRel2
      else .ok (accObjs2, accRel2)
termination_by MAX_PAGES + 1 - pageNumber
decreasing_by simp only [MAX_PAGES] at *; omega

structure CatalogResponse where
  categories : List CategoryGroup
deriving DecidableEq, Repr

structure CategoriesResponse where
  categories : List Category
deriving DecidableEq, Repr

/-- The values the shared cache stores (each route caches its own shape). -/
inductive CacheValue : Type
  | catalogV (r : CatalogResponse)
  | categoriesV (r : CategoriesResponse)
  | otherV (s : String)
deriving DecidableEq, Repr

/-- The `GET /api/catalog` handler body (cache check, page aggregation,
location filtering, grouping, cache write), with time and the upstream client
explicit.  Returns the response (or the propagated error) and the cache state
after the request. -/
def catalogGetHandler {ε : Type}
    (client : Nat → Option String → Except ε SquareSearchCatalogResponse)
    (location_id : String) (ttl now : Nat) (cache : MemoryCache CacheValue) :
    Except ε CacheValue × MemoryCache CacheValue :=
  let cacheKey := buildCacheKey ["catalog", location_id]
  match cacheGet cache cacheKey now with
  | some cached => (.ok cached, cache)
  | none =>
      match searchGo client none 1 [] [] with
      | .error e => (.error e, cache)
      | .ok (catalogObjects, allRelatedObjects) =>
          let allItems := catalogObjects.filterMap asItem
          let locationItems := filterItemsByLocation allItems location_id
          if locationItems.isEmpty then
            let emptyResult := CacheValue.catalogV ⟨[]⟩
            (.ok emptyResult, cacheSet cache cacheKey emptyResult ttl now)
          else
            let result :=
              CacheValue.catalogV ⟨groupItemsByCategory locationItems allRelatedObjects⟩
            (.ok result, cacheSet cache cacheKey result ttl now)

/-- The `GET /api/catalog/categories` handler body, same shape as the catalog
handler with `extractCategoriesFromRelatedObjects` as the transformer. -/
def categoriesGetHandler {ε : Type}
    (client : Nat → Option String → Except ε SquareSearchCatalogResponse)
    (location_id : String) (ttl now : Nat) (cache : MemoryCache CacheValue) :
    Except ε CacheValue × MemoryCache CacheValue :=
  let cacheKey := buildCacheKey ["categories", location_id]
  match cacheGet cache cacheKey now with
  | some cached => (.ok cached, cache)
  | none =>
      match searchGo client none 1 [] [] with
      | .error e => (.error e, cache)
      | .ok (catalogObjects, allRelatedObjects) =>
          let allItems := catalogObjects.filterMap asItem
          let locationItems := filterItemsByLocation allItems location_id
          if locationItems.isEmpty then
            let emptyResult := CacheValue.categoriesV ⟨[]⟩
            (.ok emptyResult, cacheSet cache cacheKey emptyResult ttl now)
          else
            let result :=
              CacheValue.categoriesV
                ⟨extractCategoriesFromRelatedObjects allRelatedObjects locationItems⟩
            (.ok result, cacheSet cache cacheKey result ttl now)

-- ── Webhook invalidation: webhooks.route.ts ──

structure SquareWebhookEvent where
  merchant_id : String
  type : String
  event_id : String
deriving DecidableEq, Repr

/-- The observable response of the webhook handler. -/
structure WebhookResponse where
  status : Nat
  message : String
  event_id : String
  caches_cleared : Option (List String)
deriving DecidableEq, Repr

/-- The `POST /webhooks/square/catalog-updated` handler: on a
`catalog.version.updated` event clear the `catalog:` and `categories:`
prefixes; acknowledge every other event type without touching the cache. -/
def webhookCatalogUpdated {V : Type} (event : SquareWebhookEvent)
    (cache : MemoryCache V) : WebhookResponse × MemoryCache V :=
  if event.type = "catalog.version.updated" then
    let c1 := cacheClear cache (some "catalog:")
    let c2 := cacheClear c1 (some "categories:")
    (⟨200, "Webhook processed successfully", event.event_id,
      some ["catalog:*", "categories:*"]⟩, c2)
  else
    (⟨200, "Webhook received", event.event_id, none⟩, cache)

-- ── Specification-side definitions (the claims' own wording) ──

/-- The claims' notion of a regular-kind category: the category-kind field is
absent or equals the regular/product kind (no truthiness reading). -/
def specRegularKind (c : SquareCatalogCategory) : Bool :=
  c.category_data.category_type == none
    || c.category_data.category_type == some "REGULAR_CATEGORY"

/-- Whether `o` is a category with id `cid` that is regular-kind in the
claims' sense. -/
def specCategoryMatch (cid : String) : SquareCatalogObject → Bool
  | .category c => c.id == cid && specRegularKind c
  | _ => false

/-- The display name carried by a category object. -/
def categoryNameOf : SquareCatalogObject → Option String
  | .category c => some c.category_data.name
  | _ => none

/-- First category object in related objects whose ID equals `cid` and which is
regular-kind in the claims' sense. -/
def specFindCategory (cid : String) (rel : List SquareCatalogObject) :
    Option SquareCatalogCategory :=
  match rel.find? (specCategoryMatch cid) with
  | some (.category c) => some c
  | _ => none

/-- First category object whose ID equals `cid` and which passes the code's
truthiness kind test (`regularKindCheck`). -/
def codeFindCategory (cid : String) (rel : List SquareCatalogObject) :
    Option SquareCatalogCategory :=
  match rel.find?
      (fun o =>
        match o with
        | .category c => c.id == cid && regularKindCheck c
        | _ => false) with
  | some (.category c) => some c
  | _ => none

/-- First regular-kind (claims' sense) category whose name equals `name`. -/
def specFindCategoryByName (name : String) (rel : List SquareCatalogObject) :
    Option SquareCatalogCategory :=
  match rel.find?
      (fun o =>
        match o with
        | .category c => specRegularKind c && c.category_data.name == name
        | _ => false) with
  | some (.category c) => some c
  | _ => none

/-- First category passing the code's kind test whose name equals `name`. -/
def codeFindCategoryByName (name : String) (rel : List SquareCatalogObject) :
    Option SquareCatalogCategory :=
  match rel.find?
      (fun o =>
        match o with
        | .category c => regularKindCheck c && c.category_data.name == name
        | _ => false) with
  | some (.category c) => some c
  | _ => none

/-- Name contributed by one object to the lookup map for id `cid`. -/
def qualNameFor (cid : String) : SquareCatalogObject → Option String
  | .category c =>
      if regularKindCheck c && c.id == cid then some c.category_data.name
      else none
  | _ => none

/-- Names of the categories with id `cid` that pass the code's kind test, in
related-objects order (the lookup map keeps the last of these). -/
def qualifyingCategoryNames (rel : List SquareCatalogObject) (cid : String) :
    List String :=
  rel.filterMap (qualNameFor cid)

/-- Name of the last qualifying category with id `cid` (the one the lookup map
retains, since later `Map.set` calls overwrite earlier ones). -/
def lastQualifyingName (cid : String) : List SquareCatalogObject → Option String
  | [] => none
  | o :: rest =>
      match lastQualifyingName cid rest with
      | some n => some n
      | none => qualNameFor cid o

/-- Number of items in the list referencing category `cid`. -/
def refCount (items : List SquareCatalogItem) (cid : String) : Nat :=
  (items.filter (fun it => it.item_data.category_id == some cid)).length

/-- The claims' qualification predicate for the location filter. -/
def qualifiesForLocation (item : SquareCatalogItem) (locationId : String) :
    Prop :=
  item.present_at_all_locations = some true
    ∨ locationId ∈ item.present_at_location_ids.getD []

instance (item : SquareCatalogItem) (locationId : String) :
    Decidable (qualifiesForLocation item locationId) := by
  unfold qualifiesForLocation; infer_instance

/-- Total item count over a categories-with-counts result. -/
def sumItemCounts (cs : List Category) : Nat :=
  (cs.map Category.item_count).sum

/-- Total number of items over a grouped-catalog result. -/
def totalGroupedItems (gs : List CategoryGroup) : Nat :=
  (gs.map (fun g => g.items.length)).sum

/-- Claim C1 exactly as stated, as a predicate over the inputs: groups are the
transformed items grouped by resolved display name in input order, each group
carries the ID of the first regular-kind category of that name (sentinel
`uncategorized` only when there is none), groups are sorted by name, and the
group names are exactly the resolved item names without duplication. -/
def C1Statement (items : List SquareCatalogItem)
    (rel : List SquareCatalogObject) : Prop :=
  let gs := groupItemsByCategory items rel
  let ms := items.map (fun it => transformCatalogItem it rel)
  List.Sorted groupLe gs
    ∧ (∀ g ∈ gs, g.items = ms.filter (fun m => m.category == g.category))
    ∧ (∀ g ∈ gs,
        g.categoryId =
          match specFindCategoryByName g.category rel with
          | some c => c.id
          | none => "uncategorized")
    ∧ (gs.map CategoryGroup.category).Nodup
    ∧ (∀ m ∈ ms, ∃ g ∈ gs, g.category = m.category)
    ∧ (∀ g ∈ gs, ∃ m ∈ ms, m.category = g.category)

/-- Claim C3 exactly as stated, as a predicate over the inputs: one entry per
category ID referenced by at least one item, counts from the item list, names
resolved from regular-kind categories with `Unknown Category` as the only
fallback, sorted ascending by name. -/
def C3Statement (rel : List SquareCatalogObject)
    (items : List SquareCatalogItem) : Prop :=
  let cs := extractCategoriesFromRelatedObjects rel items
  List.Sorted catLe cs
    ∧ (cs.map Category.id).Nodup
    ∧ (∀ cid, (∃ it ∈ items, it.item_data.category_id = some cid)
        ↔ ∃ e ∈ cs, e.id = cid)
    ∧ (∀ e ∈ cs,
        e.item_count = refCount items e.id
          ∧ (if ∃ o ∈ rel, specCategoryMatch e.id o = true
             then ∃ o ∈ rel, specCategoryMatch e.id o = true
                    ∧ categoryNameOf o = some e.name
             else e.name = "Unknown Category"))

/-- Claim C4 exactly as stated, as a predicate over the inputs: the resolved
category name is the name of the first regular-kind category matching the item
category reference, `Uncategorized` when there is none or when the item has no
reference. -/
def C4Statement (item : SquareCatalogItem)
    (rel : List SquareCatalogObject) : Prop :=
  (item.item_data.category_id = none →
    (transformCatalogItem item rel).category = "Uncategorized")
    ∧ ∀ cid, item.item_data.category_id = some cid →
        (transformCatalogItem item rel).category =
          match specFindCategory cid rel with
          | some c => c.category_data.name
          | none => "Uncategorized"

/-- Claim C9 exactly as stated, as a predicate over one variation: the produced
record carries the received minor-unit amount in one of its fields, together
with the major-unit decimal `amount / 100` and the formatted string. -/
def C9Statement (v : SquareCatalogVariation) : Prop :=
  let amt := (v.item_variation_data.price_money.map SquareMoney.amount).getD 0
  let r := transformVariation v
  (r.priceDollars = (amt : ℚ) ∨ r.id = toString amt ∨ r.name = toString amt
      ∨ r.priceFormatted = toString amt)
    ∧ r.priceDollars = (amt : ℚ) / 100
    ∧ r.priceFormatted = formatPrice amt

-- ── Concrete inputs for counterexamples and witnesses ──

/-- A catalog item present everywhere, with a category reference and nothing
else, used in concrete scenarios. -/
def plainItem (iid : String) (cid : Option String) : SquareCatalogItem :=
  ⟨iid, some true, none, ⟨"item " ++ iid, none, cid, none, none⟩⟩

/-- A category related-object with no kind field. -/
def plainCategory (cid name : String) : SquareCatalogObject :=
  .category ⟨cid, ⟨name, none⟩⟩

/-- C1 counterexample input: the first regular-kind category named `A` has the
empty string as its ID. -/
def c1CexRel : List SquareCatalogObject :=
  [plainCategory "" "A", plainCategory "C" "A"]

def c1CexItems : List SquareCatalogItem := [plainItem "I" (some "C")]

/-- C3 counterexample input: one item referencing the empty-string category. -/
def c3CexItems : List SquareCatalogItem := [plainItem "I" (some "")]

/-- C4 counterexample input: an item referencing the empty-string category
while a regular-kind category with that exact ID exists. -/
def c4CexItem : SquareCatalogItem := plainItem "I" (some "")

def c4CexRel : List SquareCatalogObject := [plainCategory "" "A"]

/-- C9 counterexample input: a variation priced at 1250 minor units. -/
def c9CexVariation : SquareCatalogVariation :=
  ⟨"V1", ⟨"Small", "FIXED_PRICING", some ⟨1250, "USD"⟩⟩⟩

/-- Scenario input: two categories whose names sort as Apple before Zebra. -/
def zaRel : List SquareCatalogObject :=
  [plainCategory "CAT_A" "Zebra", plainCategory "CAT_B" "Apple"]

def zaItems : List SquareCatalogItem :=
  [plainItem "I1" (some "CAT_A"), plainItem "I2" (some "CAT_B")]

/-- The Apple group the scenario is expected to produce. -/
def zaAppleGroup : CategoryGroup :=
  ⟨"Apple", "CAT_B", [transformCatalogItem (plainItem "I2" (some "CAT_B")) zaRel]⟩

/-- Scenario input: one item referencing a category missing upstream. -/
def missItems : List SquareCatalogItem := [plainItem "I" (some "MISSING")]

instance (items : List SquareCatalogItem) (rel : List SquareCatalogObject) :
    Decidable (C1Statement items rel) := by
  unfold C1Statement; infer_instance

instance (item : SquareCatalogItem) (rel : List SquareCatalogObject) :
    Decidable (C4Statement item rel) := by
  unfold C4Statement; infer_instance

-- ── Proof-layer helper definitions ──

/-- Extension of an optional group by a batch of appended items. -/
def extendGroup (o : Option (List MenuItem)) (l : List MenuItem) :
    Option (List MenuItem) :=
  match o, l with
  | none, [] => none
  | o, l => some (o.getD [] ++ l)

/-- Extension of an optional counter by an increment. -/
def extendCount (o : Option Nat) (n : Nat) : Option Nat :=
  match o, n with
  | none, 0 => none
  | o, n => some (o.getD 0 + n)

/-- Total of the numeric values of an association list. -/
def sumValuesN (m : List (String × Nat)) : Nat := (m.map Prod.snd).sum

/-- Total length of the list values of an association list. -/
def sumLens (m : List (String × List MenuItem)) : Nat :=
  (m.map (fun p => p.2.length)).sum

-- ════════════════════════ Theorems ════════════════════════

-- ── Order lemmas for the modelled collation ──

theorem charsLe_total (a b : List Char) :
    charsLe a b = true ∨ charsLe b a = true := by
  induction a generalizing b with
  | nil => left; rfl
  | cons x xs ih =>
    cases b with
    | nil => right; rfl
    | cons y ys =>
      simp only [charsLe]
      rcases Nat.lt_trichotomy x.toNat y.toNat with h | h | h
      · left; simp [h]
      · have h2 : ¬ x.toNat < y.toNat := by omega
        have h3 : ¬ y.toNat < x.toNat := by omega
        rcases ih ys with h4 | h4
        · left; simp [h2, h3, h4]
        · right; simp [h2, h3, h4]
      · right; simp [h]

theorem charsLe_trans (a b c : List Char) (h1 : charsLe a b = true)
    (h2 : charsLe b c = true) : charsLe a c = true := by
  induction a generalizing b c with
  | nil => rfl
  | cons x xs ih =>
    cases b with
    | nil => simp [charsLe] at h1
    | cons y ys =>
      cases c with
      | nil => simp [charsLe] at h2
      | cons z zs =>
        simp only [charsLe] at h1 h2 ⊢
        split_ifs at h1 h2 ⊢ <;> first
          | rfl
          | omega
          | exact ih ys zs h1 h2

theorem localeCompareLe_total (a b : String) :
    localeCompareLe a b = true ∨ localeCompareLe b a = true :=
  charsLe_total a.data b.data

theorem localeCompareLe_trans (a b c : String)
    (h1 : localeCompareLe a b = true) (h2 : localeCompareLe b c = true) :
    localeCompareLe a c = true :=
  charsLe_trans a.data b.data c.data h1 h2

-- ── Association-list (JavaScript Map) lemmas ──

theorem mapGet_mapSet_self {α : Type} (m : List (String × α)) (k : String)
    (v : α) : mapGet (mapSet m k v) k = some v := by
  induction m with
  | nil => simp [mapSet, mapGet]
  | cons p rest ih =>
    by_cases h : p.1 = k
    · simp [mapSet, mapGet, h]
    · simp [mapSet, mapGet, h, ih]

theorem mapGet_mapSet_ne {α : Type} (m : List (String × α)) (k k2 : String)
    (v : α) (h : k2 ≠ k) : mapGet (mapSet m k v) k2 = mapGet m k2 := by
  induction m with
  | nil =>
    have h2 : ¬ k = k2 := fun hh => h hh.symm
    simp [mapSet, mapGet, h2]
  | cons p rest ih =>
    by_cases hp : p.1 = k
    · have h2 : ¬ k = k2 := fun hh => h hh.symm
      have h3 : ¬ p.1 = k2 := by rw [hp]; exact h2
      simp [mapSet, mapGet, hp, h2, h3]
    · by_cases hq : p.1 = k2
      · simp [mapSet, mapGet, hp, hq, h]
      · simp [mapSet, mapGet, hp, hq, ih]

/-- No two bindings share a key. -/
def NoDupKeys {α : Type} (m : List (String × α)) : Prop :=
  List.Pairwise (fun p q => p.1 ≠ q.1) m

theorem mem_mapSet {α : Type} (m : List (String × α)) (k : String) (v : α)
    (q : String × α) (h : q ∈ mapSet m k v) : q = (k, v) ∨ q ∈ m := by
  induction m with
  | nil => simp [mapSet] at h; simp [h]
  | cons p rest ih =>
    by_cases hp : p.1 = k
    · simp only [mapSet, if_pos hp] at h
      rcases List.mem_cons.mp h with h2 | h2
      · exact Or.inl h2
      · exact Or.inr (List.mem_cons_of_mem _ h2)
    · simp only [mapSet, if_neg hp] at h
      rcases List.mem_cons.mp h with h2 | h2
      · exact Or.inr (h2 ▸ List.mem_cons_self p rest)
      · rcases ih h2 with h3 | h3
        · exact Or.inl h3
        · exact Or.inr (List.mem_cons_of_mem _ h3)

theorem noDupKeys_mapSet {α : Type} (m : List (String × α)) (k : String)
    (v : α) (h : NoDupKeys m) : NoDupKeys (mapSet m k v) := by
  induction m with
  | nil => simp [mapSet, NoDupKeys]
  | cons p rest ih =>
    rcases List.pairwise_cons.mp h with ⟨hhead, htail⟩
    by_cases hp : p.1 = k
    · simp only [mapSet, if_pos hp]
      exact List.pairwise_cons.mpr
        ⟨fun q hq => by simpa using (hp ▸ hhead q hq : k ≠ q.1), htail⟩
    · simp only [mapSet, if_neg hp]
      refine List.pairwise_cons.mpr ⟨fun q hq => ?_, ih htail⟩
      rcases mem_mapSet rest k v q hq with h2 | h2
      · rw [h2]; exact hp
      · exact hhead q h2

theorem mapGet_eq_some_of_mem {α : Type} (m : List (String × α)) (k : String)
    (v : α) (hnd : NoDupKeys m) (hmem : (k, v) ∈ m) :
    mapGet m k = some v := by
  induction m with
  | nil => simp at hmem
  | cons p rest ih =>
    rcases List.pairwise_cons.mp hnd with ⟨hhead, htail⟩
    rcases List.mem_cons.mp hmem with h | h
    · simp [mapGet, ← h]
    · have hk : p.1 ≠ k := hhead (k, v) h
      simp only [mapGet, if_neg hk]
      exact ih htail h

theorem mem_of_mapGet_eq_some {α : Type} (m : List (String × α)) (k : String)
    (v : α) (h : mapGet m k = some v) : (k, v) ∈ m := by
  induction m with
  | nil => simp [mapGet] at h
  | cons p rest ih =>
    by_cases hp : p.1 = k
    · simp only [mapGet, if_pos hp] at h
      have hpv : p = (k, v) := by
        rcases p with ⟨a, b⟩
        simp only at hp
        cases h
        rw [hp]
      rw [← hpv]
      exact List.mem_cons_self p rest
    · simp only [mapGet, if_neg hp] at h
      exact List.mem_cons_of_mem _ (ih h)

theorem mapGet_eq_none_iff {α : Type} (m : List (String × α)) (k : String) :
    mapGet m k = none ↔ ∀ p ∈ m, p.1 ≠ k := by
  induction m with
  | nil => simp [mapGet]
  | cons p rest ih =>
    by_cases hp : p.1 = k
    · simp [mapGet, hp]
    · simp only [mapGet, if_neg hp, ih, List.mem_cons]
      constructor
      · intro hall q hq
        rcases hq with h | h
        · rw [h]; exact hp
        · exact hall q h
      · intro hall q hq
        exact hall q (Or.inr hq)

-- ── Characterization of the grouping fold ──

theorem groupFold_get (ms : List MenuItem) :
    ∀ (m : List (String × List MenuItem)) (k : String),
      mapGet
        (ms.foldl
          (fun m mi =>
            mapSet m mi.category ((mapGet m mi.category).getD [] ++ [mi]))
          m) k
        = extendGroup (mapGet m k) (ms.filter (fun mi => mi.category == k)) := by
  induction ms with
  | nil =>
    intro m k
    cases h : mapGet m k <;> simp [extendGroup, h]
  | cons mi rest ih =>
    intro m k
    by_cases hc : mi.category = k
    · have hb : (mi.category == k) = true := by simp [hc]
      simp only [List.foldl_cons, List.filter_cons, hb, if_pos rfl, ih]
      rw [hc, mapGet_mapSet_self]
      cases h : mapGet m k <;>
        simp [extendGroup, h, List.append_assoc]
    · have hb : (mi.category == k) = false := by simp [hc]
      simp only [List.foldl_cons, List.filter_cons, hb, ih]
      rw [mapGet_mapSet_ne _ _ _ _ (fun hh => hc hh.symm)]
      simp

theorem groupFold_noDupKeys (ms : List MenuItem) :
    ∀ (m : List (String × List MenuItem)), NoDupKeys m →
      NoDupKeys
        (ms.foldl
          (fun m mi =>
            mapSet m mi.category ((mapGet m mi.category).getD [] ++ [mi]))
          m) := by
  induction ms with
  | nil => intro m h; exact h
  | cons mi rest ih =>
    intro m h
    exact ih _ (noDupKeys_mapSet _ _ _ h)

theorem mapGet_groupMenuItems (ms : List MenuItem) (k : String) :
    mapGet (groupMenuItems ms) k =
      extendGroup none (ms.filter (fun mi => mi.category == k)) := by
  unfold groupMenuItems
  rw [groupFold_get]
  rfl

theorem noDupKeys_groupMenuItems (ms : List MenuItem) :
    NoDupKeys (groupMenuItems ms) :=
  groupFold_noDupKeys ms [] (by simp [NoDupKeys])

/-- Every binding of the grouping map is the input-order filter of its key, and
is nonempty. -/
theorem groupMenuItems_mem_char (ms : List MenuItem) (k : String)
    (l : List MenuItem) (h : (k, l) ∈ groupMenuItems ms) :
    l = ms.filter (fun mi => mi.category == k) ∧ l ≠ [] := by
  have hg := mapGet_eq_some_of_mem _ _ _ (noDupKeys_groupMenuItems ms) h
  rw [mapGet_groupMenuItems] at hg
  rcases hf : ms.filter (fun mi => mi.category == k) with _ | ⟨x, xs⟩
  · rw [hf] at hg; simp [extendGroup] at hg
  · rw [hf] at hg
    simp only [extendGroup, Option.getD_none] at hg
    cases hg
    exact ⟨by simpa using hf.symm, by simp⟩

/-- Every item of the input appears in the binding of its category name. -/
theorem groupMenuItems_covers (ms : List MenuItem) (mi : MenuItem)
    (h : mi ∈ ms) :
    ∃ l, (mi.category, l) ∈ groupMenuItems ms ∧ mi ∈ l := by
  have hfl : mi ∈ ms.filter (fun x => x.category == mi.category) :=
    List.mem_filter.mpr ⟨h, by simp⟩
  have hne : ms.filter (fun x => x.category == mi.category) ≠ [] := by
    intro hh; rw [hh] at hfl; simp at hfl
  have hg := mapGet_groupMenuItems ms mi.category
  rcases hf : ms.filter (fun x => x.category == mi.category) with _ | ⟨x, xs⟩
  · exact absurd hf hne
  · rw [hf] at hg
    simp only [extendGroup, Option.getD_none] at hg
    refine ⟨x :: xs, mem_of_mapGet_eq_some _ _ _ (by simpa using hg), ?_⟩
    rw [← hf]
    exact hfl

-- ── Characterization of the counting fold ──

theorem countFold_get (items : List SquareCatalogItem) :
    ∀ (m : List (String × Nat)) (k : String), k ≠ "" →
      mapGet
        (items.foldl
          (fun m item =>
            match item.item_data.category_id with
            | some cid =>
                if cid ≠ "" then mapSet m cid ((mapGet m cid).getD 0 + 1) else m
            | none => m)
          m) k
        = extendCount (mapGet m k) (refCount items k) := by
  induction items with
  | nil =>
    intro m k _
    cases h : mapGet m k <;> simp [extendCount, refCount, h]
  | cons item rest ih =>
    intro m k hk
    rcases hcid : item.item_data.category_id with _ | cid
    · have hr : refCount (item :: rest) k = refCount rest k := by
        simp [refCount, List.filter_cons, hcid]
      simp only [List.foldl_cons, hcid, hr, ih _ _ hk]
    · by_cases hck : cid = k
      · subst hck
        have hr : refCount (item :: rest) cid = refCount rest cid + 1 := by
          simp [refCount, List.filter_cons, hcid]
        simp only [List.foldl_cons, hcid, if_pos hk, hr, ih _ _ hk]
        rw [mapGet_mapSet_self]
        cases h : mapGet m cid <;>
          (simp [extendCount, h]; omega)
      · have hr : refCount (item :: rest) k = refCount rest k := by
          simp [refCount, List.filter_cons, hcid, hck]
        by_cases hc0 : cid = ""
        · have hni : ¬ (cid ≠ "") := by simp [hc0]
          simp only [List.foldl_cons, hcid, if_neg hni, hr, ih _ _ hk]
        · simp only [List.foldl_cons, hcid, if_pos hc0, hr]
          rw [ih _ _ hk, mapGet_mapSet_ne _ _ _ _ (fun hh => hck hh.symm)]

theorem countFold_noDupKeys (items : List SquareCatalogItem) :
    ∀ (m : List (String × Nat)), NoDupKeys m →
      NoDupKeys
        (items.foldl
          (fun m item =>
            match item.item_data.category_id with
            | some cid =>
                if cid ≠ "" then mapSet m cid ((mapGet m cid).getD 0 + 1) else m
            | none => m)
          m) := by
  induction items with
  | nil => intro m h; exact h
  | cons item rest ih =>
    intro m h
    rcases hcid : item.item_data.category_id with _ | cid
    · simp only [List.foldl_cons, hcid]
      exact ih _ h
    · by_cases hc0 : cid = ""
      · have hni : ¬ (cid ≠ "") := by simp [hc0]
        simp only [List.foldl_cons, hcid, if_neg hni]
        exact ih _ h
      · simp only [List.foldl_cons, hcid, if_pos hc0]
        exact ih _ (noDupKeys_mapSet _ _ _ h)

theorem mapGet_countCategoryRefs (items : List SquareCatalogItem) (k : String)
    (hk : k ≠ "") :
    mapGet (countCategoryRefs items) k = extendCount none (refCount items k) := by
  unfold countCategoryRefs
  rw [countFold_get items [] k hk]
  rfl

theorem countFold_get_empty (items : List SquareCatalogItem) :
    ∀ (m : List (String × Nat)),
      mapGet
        (items.foldl
          (fun m item =>
            match item.item_data.category_id with
            | some cid =>
                if cid ≠ "" then mapSet m cid ((mapGet m cid).getD 0 + 1) else m
            | none => m)
          m) ""
        = mapGet m "" := by
  induction items with
  | nil => intro m; rfl
  | cons item rest ih =>
    intro m
    rcases hcid : item.item_data.category_id with _ | cid
    · simp only [List.foldl_cons, hcid, ih]
    · by_cases hc0 : cid = ""
      · have hni : ¬ (cid ≠ "") := by simp [hc0]
        simp only [List.foldl_cons, hcid, if_neg hni, ih]
      · simp only [List.foldl_cons, hcid, if_pos hc0, ih]
        exact mapGet_mapSet_ne _ _ _ _ (fun hh => hc0 hh.symm)

theorem mapGet_countCategoryRefs_empty (items : List SquareCatalogItem) :
    mapGet (countCategoryRefs items) "" = none := by
  unfold countCategoryRefs
  rw [countFold_get_empty items []]
  rfl

theorem noDupKeys_countCategoryRefs (items : List SquareCatalogItem) :
    NoDupKeys (countCategoryRefs items) :=
  countFold_noDupKeys items [] (by simp [NoDupKeys])

-- ── Characterization of the category-name lookup map ──

theorem catMapFold_get (rel : List SquareCatalogObject) :
    ∀ (m : List (String × String)) (k : String),
      mapGet
        (rel.foldl
          (fun m obj =>
            match obj with
            | .category c =>
                if regularKindCheck c then mapSet m c.id c.category_data.name
                else m
            | _ => m)
          m) k
        = match lastQualifyingName k rel with
          | some n => some n
          | none => mapGet m k := by
  induction rel with
  | nil => intro m k; simp [lastQualifyingName]
  | cons o rest ih =>
    intro m k
    simp only [List.foldl_cons, lastQualifyingName, ih]
    rcases hl : lastQualifyingName k rest with _ | n
    · rcases o with i | c | img | v
      · simp [qualNameFor]
      · by_cases hq : regularKindCheck c
        · by_cases hid : c.id = k
          · subst hid
            simp [qualNameFor, hq, mapGet_mapSet_self]
          · have hb : (regularKindCheck c && (c.id == k)) = false := by
              simp [hid]
            have hne := mapGet_mapSet_ne m c.id k c.category_data.name
              (fun hh => hid hh.symm)
            simp [qualNameFor, hq, hb, hne, hid]
        · rw [Bool.not_eq_true] at hq
          simp [qualNameFor, hq]
      · simp [qualNameFor]
      · simp [qualNameFor]
    · rfl

theorem lastQualifyingName_eq_getLast (k : String)
    (rel : List SquareCatalogObject) :
    lastQualifyingName k rel = (qualifyingCategoryNames rel k).getLast? := by
  induction rel with
  | nil => simp [lastQualifyingName, qualifyingCategoryNames]
  | cons o rest ih =>
    simp only [lastQualifyingName, qualifyingCategoryNames,
      List.filterMap_cons]
    rcases hq : qualNameFor k o with _ | n
    · rw [ih]
      unfold qualifyingCategoryNames
      rcases h2 : (List.filterMap (qualNameFor k) rest).getLast? with _ | x <;>
        simp [h2]
    · rw [ih]
      unfold qualifyingCategoryNames
      rcases hnil : List.filterMap (qualNameFor k) rest with _ | ⟨y, ys⟩
      · simp
      · rw [List.getLast?_cons_cons]
        have hne := List.getLast?_eq_none_iff.not.mpr
          (by rw [hnil]; simp : List.filterMap (qualNameFor k) rest ≠ [])
        rcases hl : (y :: ys).getLast? with _ | x
        · rw [hnil] at hne; exact absurd hl hne
        · simp

theorem mapGet_buildCategoryMap (rel : List SquareCatalogObject) (k : String) :
    mapGet (buildCategoryMap rel) k
      = (qualifyingCategoryNames rel k).getLast? := by
  unfold buildCategoryMap
  rw [catMapFold_get rel [] k, lastQualifyingName_eq_getLast]
  rcases (qualifyingCategoryNames rel k).getLast? with _ | n <;> simp [mapGet]

-- ── Sum lemmas ──

theorem sumValuesN_mapSet_incr (m : List (String × Nat)) (k : String) :
    sumValuesN (mapSet m k ((mapGet m k).getD 0 + 1)) = sumValuesN m + 1 := by
  induction m with
  | nil => simp [mapSet, mapGet, sumValuesN]
  | cons p rest ih =>
    by_cases hp : p.1 = k
    · simp only [mapSet, mapGet, if_pos hp, sumValuesN, List.map_cons,
        List.sum_cons, Option.getD_some]
      omega
    · simp only [mapGet, if_neg hp] at ih ⊢
      simp only [mapSet, if_neg hp, sumValuesN, List.map_cons, List.sum_cons]
      simp only [sumValuesN] at ih
      omega

theorem sumLens_mapSet_push (m : List (String × List MenuItem)) (k : String)
    (mi : MenuItem) :
    sumLens (mapSet m k ((mapGet m k).getD [] ++ [mi])) = sumLens m + 1 := by
  induction m with
  | nil => simp [mapSet, mapGet, sumLens]
  | cons p rest ih =>
    by_cases hp : p.1 = k
    · simp only [mapSet, mapGet, if_pos hp, sumLens, List.map_cons,
        List.sum_cons, Option.getD_some, List.length_append,
        List.length_singleton]
      omega
    · simp only [mapGet, if_neg hp] at ih ⊢
      simp only [mapSet, if_neg hp, sumLens, List.map_cons, List.sum_cons]
      simp only [sumLens] at ih
      omega

theorem sumValuesN_countCategoryRefs (items : List SquareCatalogItem) :
    sumValuesN (countCategoryRefs items)
      = (items.filter (fun it => truthyStr it.item_data.category_id)).length := by
  suffices h : ∀ m,
      sumValuesN
        (items.foldl
          (fun m item =>
            match item.item_data.category_id with
            | some cid =>
                if cid ≠ "" then mapSet m cid ((mapGet m cid).getD 0 + 1) else m
            | none => m)
          m)
        = sumValuesN m
            + (items.filter (fun it => truthyStr it.item_data.category_id)).length by
    have := h []
    unfold countCategoryRefs
    simpa [sumValuesN] using this
  induction items with
  | nil => intro m; simp
  | cons item rest ih =>
    intro m
    rcases hcid : item.item_data.category_id with _ | cid
    · simp only [List.foldl_cons, hcid]
      rw [ih, List.filter_cons]
      simp [hcid, truthyStr]
    · by_cases hc0 : cid = ""
      · have hni : ¬ (cid ≠ "") := by simp [hc0]
        simp only [List.foldl_cons, hcid, if_neg hni]
        rw [ih, List.filter_cons]
        simp [hcid, truthyStr, hc0]
      · simp only [List.foldl_cons, hcid, if_pos hc0]
        rw [ih, sumValuesN_mapSet_incr, List.filter_cons]
        simp [hcid, truthyStr, hc0]
        omega

theorem sumLens_groupMenuItems (ms : List MenuItem) :
    sumLens (groupMenuItems ms) = ms.length := by
  suffices h : ∀ m,
      sumLens
        (ms.foldl
          (fun m mi =>
            mapSet m mi.category ((mapGet m mi.category).getD [] ++ [mi]))
          m)
        = sumLens m + ms.length by
    have := h []
    unfold groupMenuItems
    simpa [sumLens] using this
  induction ms with
  | nil => intro m; simp
  | cons mi rest ih =>
    intro m
    simp only [List.foldl_cons, ih, sumLens_mapSet_push, List.length_cons]
    omega

-- ── First-match bridges between the scanning loops and find? form ──

theorem findCategoryName_eq (cid : String) (rel : List SquareCatalogObject) :
    findCategoryName cid rel
      = (codeFindCategory cid rel).map (fun c => c.category_data.name) := by
  induction rel with
  | nil => simp [findCategoryName, codeFindCategory]
  | cons o rest ih =>
    rcases o with i | c | img | v
    · simpa [findCategoryName, codeFindCategory, List.find?_cons] using ih
    · by_cases hid : c.id = cid
      · by_cases hq : regularKindCheck c
        · simp [findCategoryName, codeFindCategory, List.find?_cons, hid, hq]
        · simpa [findCategoryName, codeFindCategory, List.find?_cons, hid, hq]
            using ih
      · simpa [findCategoryName, codeFindCategory, List.find?_cons, hid]
          using ih
    · simpa [findCategoryName, codeFindCategory, List.find?_cons] using ih
    · simpa [findCategoryName, codeFindCategory, List.find?_cons] using ih

theorem findGroupCategoryId_eq (name : String)
    (rel : List SquareCatalogObject) :
    findGroupCategoryId name rel
      = match codeFindCategoryByName name rel with
        | some c => if c.id = "" then "uncategorized" else c.id
        | none => "uncategorized" := by
  induction rel with
  | nil => simp [findGroupCategoryId, codeFindCategoryByName]
  | cons o rest ih =>
    rcases o with i | c | img | v
    · simpa [findGroupCategoryId, codeFindCategoryByName, List.find?_cons]
        using ih
    · by_cases hm : (regularKindCheck c && (c.category_data.name == name)) = true
      · simp [findGroupCategoryId, codeFindCategoryByName, List.find?_cons, hm]
      · simp only [Bool.not_eq_true] at hm
        simpa [findGroupCategoryId, codeFindCategoryByName, List.find?_cons,
          hm] using ih
    · simpa [findGroupCategoryId, codeFindCategoryByName, List.find?_cons]
        using ih
    · simpa [findGroupCategoryId, codeFindCategoryByName, List.find?_cons]
        using ih

-- ── Sortedness and permutation facts for the two sorts ──

theorem sorted_catSort (l : List Category) :
    List.Sorted catLe (List.insertionSort catLe l) :=
  @List.sorted_insertionSort Category catLe _
    ⟨fun a b => localeCompareLe_total a.name b.name⟩
    ⟨fun a b c => localeCompareLe_trans a.name b.name c.name⟩ l

theorem perm_catSort (l : List Category) :
    (List.insertionSort catLe l).Perm l :=
  List.perm_insertionSort catLe l

theorem sorted_groupSort (l : List CategoryGroup) :
    List.Sorted groupLe (List.insertionSort groupLe l) :=
  @List.sorted_insertionSort CategoryGroup groupLe _
    ⟨fun a b => localeCompareLe_total a.category b.category⟩
    ⟨fun a b c => localeCompareLe_trans a.category b.category c.category⟩ l

theorem perm_groupSort (l : List CategoryGroup) :
    (List.insertionSort groupLe l).Perm l :=
  List.perm_insertionSort groupLe l

-- ── C5: location filter ──

/-- C5: `filterItemsByLocation` keeps an item exactly when its
present-everywhere flag is `true` or its explicit location-ID list contains the
target ID under exact, case-sensitive equality; everything else is excluded and
the kept items stay in input order. -/
theorem filterItemsByLocation_spec :
    ∀ (items : List SquareCatalogItem) (locationId : String),
      filterItemsByLocation items locationId
          = items.filter
              (fun item => decide (qualifiesForLocation item locationId))
        ∧ (filterItemsByLocation items locationId).Sublist items
        ∧ ∀ item, item ∈ filterItemsByLocation items locationId
            ↔ item ∈ items ∧ qualifiesForLocation item locationId := by
  intro items locationId
  have hfil : filterItemsByLocation items locationId
      = items.filter
          (fun item => decide (qualifiesForLocation item locationId)) := by
    unfold filterItemsByLocation
    apply List.filter_congr
    intro x _
    rw [Bool.eq_iff_iff]
    simp [qualifiesForLocation]
  refine ⟨hfil, ?_, ?_⟩
  · rw [hfil]; exact List.filter_sublist items
  · intro item
    rw [hfil, List.mem_filter]
    simp

-- ── C7: cache TTL round trip ──

/-- C7: after `set(key, value, ttl)` at time `now`, a `get(key)` strictly
before the TTL deadline returns the stored value and a `get(key)` strictly
after the deadline returns `null`, indistinguishable from a key that was never
stored. -/
theorem cache_ttl_roundtrip {V : Type} (c : MemoryCache V) (key : String)
    (v : V) (ttl now now2 : Nat) (_hpos : 0 < ttl) :
    (now2 < now + ttl * 1000 →
      cacheGet (cacheSet c key v ttl now) key now2 = some v)
    ∧ (now + ttl * 1000 < now2 →
        cacheGet (cacheSet c key v ttl now) key now2 = none
          ∧ ∀ c0 : MemoryCache V, (∀ en ∈ c0.entries, en.key ≠ key) →
              cacheGet c0 key now2 = none) := by
  refine ⟨?_, ?_⟩
  · intro h
    simp only [cacheGet, cacheSet]
    rw [List.find?_cons_of_pos _ (by simp)]
    show (if now2 ≤ now + ttl * 1000 then some v else none) = some v
    rw [if_pos (by omega : now2 ≤ now + ttl * 1000)]
  · intro h
    refine ⟨?_, ?_⟩
    · simp only [cacheGet, cacheSet]
      rw [List.find?_cons_of_pos _ (by simp)]
      show (if now2 ≤ now + ttl * 1000 then some v else none) = none
      rw [if_neg (by omega : ¬ now2 ≤ now + ttl * 1000)]
    · intro c0 h0
      simp only [cacheGet]
      rw [List.find?_eq_none.mpr]
      intro en hen
      simpa using h0 en hen

-- ── C8: webhook cache invalidation ──

theorem find?_filter_of_imp {α : Type} (p q : α → Bool) (l : List α)
    (h : ∀ x, p x = true → q x = true) :
    List.find? p (l.filter q) = List.find? p l := by
  induction l with
  | nil => rfl
  | cons a t ih =>
    by_cases hq : q a = true
    · rw [List.filter_cons_of_pos hq]
      by_cases hp : p a = true
      · rw [List.find?_cons_of_pos _ hp, List.find?_cons_of_pos _ hp]
      · rw [List.find?_cons_of_neg _ hp, List.find?_cons_of_neg _ hp, ih]
    · rw [List.filter_cons_of_neg hq, ih,
        List.find?_cons_of_neg _ (fun hp => hq (h a hp))]

/-- C8: on a `catalog.version.updated` event no `catalog:`- or
`categories:`-prefixed key survives, every other key (the `locations` key in
particular) reads as before, any other event type leaves the cache untouched,
and clearing a prefix that matches nothing is a no-op. -/
theorem webhook_invalidation_spec {V : Type} (event : SquareWebhookEvent)
    (cache : MemoryCache V) (now : Nat) :
    (event.type = "catalog.version.updated" →
      (∀ en ∈ ((webhookCatalogUpdated event cache).2).entries,
          strBeginsWith en.key "catalog:" = false
            ∧ strBeginsWith en.key "categories:" = false)
        ∧ (∀ k, strBeginsWith k "catalog:" = false →
            strBeginsWith k "categories:" = false →
            cacheGet (webhookCatalogUpdated event cache).2 k now
              = cacheGet cache k now)
        ∧ cacheGet (webhookCatalogUpdated event cache).2 "locations" now
            = cacheGet cache "locations" now
        ∧ (webhookCatalogUpdated event cache).1.status = 200)
    ∧ (event.type ≠ "catalog.version.updated" →
        webhookCatalogUpdated event cache
          = (⟨200, "Webhook received", event.event_id, none⟩, cache))
    ∧ (∀ p : String, p ≠ "" → (∀ en ∈ cache.entries,
          strBeginsWith en.key p = false) →
        cacheClear cache (some p) = cache) := by
  refine ⟨?_, ?_, ?_⟩
  · intro hev
    have h2 : (webhookCatalogUpdated event cache).2
        = ⟨((cache.entries.filter
              (fun e => !(strBeginsWith e.key "catalog:"))).filter
              (fun e => !(strBeginsWith e.key "categories:")))⟩ := by
      simp [webhookCatalogUpdated, hev, cacheClear]
    have hmem : ∀ en ∈ ((webhookCatalogUpdated event cache).2).entries,
        strBeginsWith en.key "catalog:" = false
          ∧ strBeginsWith en.key "categories:" = false := by
      intro en hen
      rw [h2] at hen
      have h3 := List.mem_filter.mp hen
      have h4 := List.mem_filter.mp h3.1
      constructor
      · simpa using h4.2
      · simpa using h3.2
    have hget : ∀ k, strBeginsWith k "catalog:" = false →
        strBeginsWith k "categories:" = false →
        cacheGet (webhookCatalogUpdated event cache).2 k now
          = cacheGet cache k now := by
      intro k hk1 hk2
      rw [h2]
      simp only [cacheGet]
      rw [find?_filter_of_imp _ _ _ ?imp2, find?_filter_of_imp _ _ _ ?imp1]
      case imp1 =>
        intro x hx
        have : x.key = k := by simpa using hx
        simp [this, hk1]
      case imp2 =>
        intro x hx
        have : x.key = k := by simpa using hx
        simp [this, hk2]
    refine ⟨hmem, hget, ?_, ?_⟩
    · exact hget "locations" (by decide) (by decide)
    · simp [webhookCatalogUpdated, hev]
  · intro hev
    simp [webhookCatalogUpdated, hev]
  · intro p hp h0
    rcases cache with ⟨entries⟩
    simp only [cacheClear, if_neg hp]
    congr 1
    apply List.filter_eq_self.mpr
    intro a ha
    simpa using h0 a ha

/-- C7 witness: a concrete set/get round trip before and after expiry. -/
theorem cache_ttl_roundtrip_witness :
    cacheGet (cacheSet (⟨[]⟩ : MemoryCache Nat) "k" 42 60 0) "k" 1000 = some 42
      ∧ cacheGet (cacheSet (⟨[]⟩ : MemoryCache Nat) "k" 42 60 0) "k" 70000
          = none := by
  constructor
  · exact (cache_ttl_roundtrip ⟨[]⟩ "k" 42 60 0 1000 (by norm_num)).1
      (by norm_num)
  · exact ((cache_ttl_roundtrip ⟨[]⟩ "k" 42 60 0 70000 (by norm_num)).2
      (by norm_num)).1

/-- C8 witness: a qualifying event leaves the `locations` key readable. -/
theorem webhook_invalidation_spec_witness :
    cacheGet
        (webhookCatalogUpdated ⟨"M", "catalog.version.updated", "E1"⟩
          (⟨[⟨"catalog:LOC1", 1, 99⟩, ⟨"locations", 2, 99⟩]⟩ :
            MemoryCache Nat)).2
        "locations" 5
      = cacheGet
          (⟨[⟨"catalog:LOC1", 1, 99⟩, ⟨"locations", 2, 99⟩]⟩ : MemoryCache Nat)
          "locations" 5 := by
  exact ((webhook_invalidation_spec
    ⟨"M", "catalog.version.updated", "E1"⟩
    (⟨[⟨"catalog:LOC1", 1, 99⟩, ⟨"locations", 2, 99⟩]⟩ : MemoryCache Nat)
    5).1 rfl).2.2.1

-- ── C2: pagination aggregator ──

theorem aggGo_pages_run {ε α : Type} (pages : Nat → SquarePage α) (N : Nat)
    (h1 : 1 ≤ N) (hN : N ≤ MAX_PAGES)
    (hcur : ∀ i, 1 ≤ i → i < N → truthyStr (pages i).cursor = true)
    (hlast : truthyStr (pages N).cursor = false) :
    ∀ (d p : Nat), p + d = N → 1 ≤ p →
      ∀ (acc : List α) (cursor : Option String),
        aggGo (fun i _ => (.ok (pages i) : Except ε (SquarePage α))) cursor p
            acc
          = .ok (acc ++
              (((List.range' p (d + 1)).map
                (fun i => (pages i).objects.getD [])).flatten), N) := by
  intro d
  induction d with
  | zero =>
    intro p hp hp1 acc cursor
    have hpN : p = N := by omega
    subst hpN
    rw [aggGo]
    by_cases hmax : p + 1 > MAX_PAGES
    · simp [hmax, List.range']
    · simp [hmax, hlast, List.range']
  | succ d ih =>
    intro p hp hp1 acc cursor
    have hplt : p < N := by omega
    have hmax : ¬ (p + 1 > MAX_PAGES) := by omega
    have hcurp : truthyStr (pages p).cursor = true := hcur p hp1 hplt
    rw [aggGo]
    simp only [hmax, dite_false, dif_neg hmax, hcurp, if_true]
    rw [ih (p + 1) (by omega) (by omega)]
    simp [List.range'_succ, List.append_assoc]

theorem aggGo_ceiling_run {ε α : Type} (pages : Nat → SquarePage α)
    (hcur : ∀ i, 1 ≤ i → truthyStr (pages i).cursor = true) :
    ∀ (d p : Nat), p + d = MAX_PAGES → 1 ≤ p →
      ∀ (acc : List α) (cursor : Option String),
        aggGo (fun i _ => (.ok (pages i) : Except ε (SquarePage α))) cursor p
            acc
          = .ok (acc ++
              (((List.range' p (d + 1)).map
                (fun i => (pages i).objects.getD [])).flatten), MAX_PAGES) := by
  intro d
  induction d with
  | zero =>
    intro p hp hp1 acc cursor
    have hpN : p = MAX_PAGES := by omega
    subst hpN
    rw [aggGo]
    simp [List.range', MAX_PAGES]
  | succ d ih =>
    intro p hp hp1 acc cursor
    have hmax : ¬ (p + 1 > MAX_PAGES) := by omega
    have hcurp : truthyStr (pages p).cursor = true := hcur p hp1
    rw [aggGo]
    simp only [hmax, dif_neg hmax, hcurp, if_true]
    rw [ih (p + 1) (by omega) (by omega)]
    simp [List.range'_succ, List.append_assoc]

theorem sum_map_const_on {α : Type} (l : List α) (f : α → Nat) (k : Nat)
    (h : ∀ x ∈ l, f x = k) : (l.map f).sum = l.length * k := by
  induction l with
  | nil => simp
  | cons a t ih =>
    simp only [List.map_cons, List.sum_cons, List.length_cons]
    rw [h a (List.mem_cons_self a t), ih (fun x hx => h x (List.mem_cons_of_mem a hx))]
    ring

/-- C2: a fetcher yielding `N ≤ 10` pages of `k` objects, all but the last
carrying a truthy cursor, aggregates to exactly the `N * k` objects in page
order; a fetcher whose cursor never goes away is invoked exactly 10 times and
its first 10 pages are returned without error. -/
theorem aggregateSquarePages_spec {ε α : Type} (pages : Nat → SquarePage α)
    (N k : Nat) :
    (1 ≤ N → N ≤ MAX_PAGES →
      (∀ i, 1 ≤ i → i < N → truthyStr (pages i).cursor = true) →
      truthyStr (pages N).cursor = false →
      (∀ i, 1 ≤ i → i ≤ N → ((pages i).objects.getD []).length = k) →
      aggregateSquarePages (fun i _ => (.ok (pages i) : Except ε (SquarePage α)))
          = .ok (((List.range' 1 N).map
              (fun i => (pages i).objects.getD [])).flatten)
        ∧ (((List.range' 1 N).map
              (fun i => (pages i).objects.getD [])).flatten).length = N * k)
    ∧ ((∀ i, 1 ≤ i → truthyStr (pages i).cursor = true) →
        aggregateSquarePages (fun i _ => (.ok (pages i) : Except ε (SquarePage α)))
            = .ok (((List.range' 1 MAX_PAGES).map
                (fun i => (pages i).objects.getD [])).flatten)
          ∧ aggregateSquarePagesCalls
              (fun i _ => (.ok (pages i) : Except ε (SquarePage α)))
              = .ok MAX_PAGES) := by
  constructor
  · intro h1 hN hcur hlast hk
    have hrun := aggGo_pages_run (ε := ε) pages N h1 hN hcur hlast (N - 1) 1
      (by omega) (by omega) [] none
    have hn1 : N - 1 + 1 = N := by omega
    rw [hn1] at hrun
    constructor
    · unfold aggregateSquarePages
      rw [hrun]
      rfl
    · rw [List.length_flatten]
      have hconst : ∀ x ∈ (List.range' 1 N).map
          (fun i => (pages i).objects.getD []), x.length = k := by
        intro x hx
        rcases List.mem_map.mp hx with ⟨i, hi, rfl⟩
        rcases List.mem_range'.mp hi with ⟨j, hj, rfl⟩
        exact hk _ (by omega) (by omega)
      rw [sum_map_const_on _ _ k hconst, List.length_map, List.length_range']
  · intro hcur
    have hrun := aggGo_ceiling_run (ε := ε) pages hcur (MAX_PAGES - 1) 1
      (by simp [MAX_PAGES]) (by omega) [] none
    have hn1 : MAX_PAGES - 1 + 1 = MAX_PAGES := by simp [MAX_PAGES]
    rw [hn1] at hrun
    constructor
    · unfold aggregateSquarePages
      rw [hrun]
      rfl
    · unfold aggregateSquarePagesCalls
      rw [hrun]
      rfl

/-- C2 witness: two pages of two objects each, then a 10-page ceiling run. -/
theorem aggregateSquarePages_spec_witness :
    aggregateSquarePages
        (fun i _ =>
          (.ok (if i = 1 then ⟨some [10, 11], some "next"⟩
                else ⟨some [20, 21], none⟩) :
            Except Unit (SquarePage Nat)))
        = .ok [10, 11, 20, 21]
      ∧ aggregateSquarePagesCalls
          (fun _ _ =>
            (.ok ⟨some [7], some "more"⟩ : Except Unit (SquarePage Nat)))
          = .ok 10 := by
  constructor
  · have h := (aggregateSquarePages_spec (ε := Unit)
      (fun i => if i = 1 then ⟨some [10, 11], some "next"⟩
                else ⟨some [20, 21], none⟩) 2 2).1
      (by omega) (by decide)
      (by intro i hi1 hi2; interval_cases i; decide)
      (by decide)
      (by intro i hi1 hi2; interval_cases i <;> decide)
    exact h.1
  · exact ((aggregateSquarePages_spec (ε := Unit)
      (fun _ => ⟨some [7], some "more"⟩) 1 1).2
      (fun i _ => by decide)).2

/-- The aggregation loop never consults the fetcher beyond call index
`MAX_PAGES`: two fetchers agreeing on the first ten calls produce identical
runs, which grounds reading the loop counter as the invocation count. -/
theorem aggGo_congr_first_calls {ε T : Type}
    (f g : Nat → Option String → Except ε (SquarePage T))
    (h : ∀ i c, i ≤ MAX_PAGES → f i c = g i c) :
    ∀ (d p : Nat), p + d = MAX_PAGES →
      ∀ (cursor : Option String) (acc : List T),
        aggGo f cursor p acc = aggGo g cursor p acc := by
  intro d
  induction d with
  | zero =>
    intro p hp cursor acc
    rw [aggGo, aggGo, h p cursor (by omega)]
    rcases g p cursor with e | r
    · rfl
    · have hmax : p + 1 > MAX_PAGES := by omega
      simp only [dif_pos hmax]
  | succ d ih =>
    intro p hp cursor acc
    rw [aggGo, aggGo, h p cursor (by omega)]
    rcases g p cursor with e | r
    · rfl
    · have hmax : ¬ (p + 1 > MAX_PAGES) := by omega
      simp only [dif_neg hmax]
      by_cases hc : truthyStr r.cursor = true
      · rw [if_pos hc, if_pos hc]
        exact ih (p + 1) (by omega) r.cursor _
      · rw [if_neg hc, if_neg hc]

theorem aggregateSquarePages_first_calls_only {ε T : Type}
    (f g : Nat → Option String → Except ε (SquarePage T))
    (h : ∀ i c, i ≤ MAX_PAGES → f i c = g i c) :
    aggregateSquarePages f = aggregateSquarePages g
      ∧ aggregateSquarePagesCalls f = aggregateSquarePagesCalls g := by
  unfold aggregateSquarePages aggregateSquarePagesCalls
  rw [aggGo_congr_first_calls f g h (MAX_PAGES - 1) 1 (by decide) none []]
  exact ⟨rfl, rfl⟩

-- ── C6: upstream failure aborts the operation, no cache write ──

/-- C6: an exception from a page fetch propagates out of
`aggregateSquarePages` as-is, and the catalog / categories handlers then
return that error with the cache exactly as it was (no write of any kind). -/
theorem upstream_failure_aborts {ε T : Type} :
    (∀ (fetcher : Nat → Option String → Except ε (SquarePage T))
        (cursor : Option String) (p : Nat) (acc : List T) (e : ε),
        fetcher p cursor = .error e →
        aggGo fetcher cursor p acc = .error e)
    ∧ (∀ (fetcher : Nat → Option String → Except ε (SquarePage T)) (e : ε),
        fetcher 1 none = .error e →
        aggregateSquarePages fetcher = .error e)
    ∧ (∀ (client : Nat → Option String → Except ε SquareSearchCatalogResponse)
        (loc : String) (ttl now : Nat) (cache : MemoryCache CacheValue)
        (e : ε),
        cacheGet cache (buildCacheKey ["catalog", loc]) now = none →
        searchGo client none 1 [] [] = .error e →
        catalogGetHandler client loc ttl now cache = (.error e, cache))
    ∧ (∀ (client : Nat → Option String → Except ε SquareSearchCatalogResponse)
        (loc : String) (ttl now : Nat) (cache : MemoryCache CacheValue)
        (e : ε),
        cacheGet cache (buildCacheKey ["categories", loc]) now = none →
        searchGo client none 1 [] [] = .error e →
        categoriesGetHandler client loc ttl now cache = (.error e, cache)) := by
  have hgo : ∀ (fetcher : Nat → Option String → Except ε (SquarePage T))
      (cursor : Option String) (p : Nat) (acc : List T) (e : ε),
      fetcher p cursor = .error e →
      aggGo fetcher cursor p acc = .error e := by
    intro fetcher cursor p acc e h
    rw [aggGo, h]
  refine ⟨hgo, ?_, ?_, ?_⟩
  · intro fetcher e h
    unfold aggregateSquarePages
    rw [hgo fetcher none 1 [] e h]
    rfl
  · intro client loc ttl now cache e hmiss herr
    unfold catalogGetHandler
    simp only [hmiss, herr]
  · intro client loc ttl now cache e hmiss herr
    unfold categoriesGetHandler
    simp only [hmiss, herr]

/-- C6 witness: a first-page failure leaves an empty cache empty and
propagates the error through both handlers. -/
theorem upstream_failure_aborts_witness :
    catalogGetHandler
        (fun _ _ =>
          (.error "boom" : Except String SquareSearchCatalogResponse))
        "LOC1" 300 0 ⟨[]⟩
        = (.error "boom", (⟨[]⟩ : MemoryCache CacheValue))
      ∧ categoriesGetHandler
          (fun _ _ =>
            (.error "boom" : Except String SquareSearchCatalogResponse))
          "LOC1" 300 0 ⟨[]⟩
          = (.error "boom", (⟨[]⟩ : MemoryCache CacheValue)) := by
  constructor
  · exact (upstream_failure_aborts (T := SquareCatalogObject)).2.2.1
      _ "LOC1" 300 0 ⟨[]⟩ "boom" rfl (by rw [searchGo])
  · exact (upstream_failure_aborts (T := SquareCatalogObject)).2.2.2
      _ "LOC1" 300 0 ⟨[]⟩ "boom" rfl (by rw [searchGo])

-- ── C9: variation price fields ──

/-- C9 counterexample: for the 1250-minor-unit variation the produced record
holds the minor amount in none of its fields (its only numeric field is the
major-unit decimal 12.5), refuting the claim that the record carries the price
in minor currency units as received. -/
theorem transformVariation_claim_counterexample :
    ¬ C9Statement c9CexVariation := by
  intro h
  obtain ⟨h1, -, -⟩ := h
  rcases h1 with h1 | h1 | h1 | h1
  · norm_num [transformVariation, c9CexVariation] at h1
  · exact absurd h1 (by decide)
  · exact absurd h1 (by decide)
  · exact absurd h1 (by decide)

/-- C9 amended: every variation record produced by `transformCatalogItem`
carries exactly two price fields, the major-unit decimal `amount / 100` and
the fixed two-decimal dollar string of the same amount (1250 yields $12.50,
0 yields $0.00); both are determined by the received minor-unit integer, which
itself is recoverable but not stored. -/
theorem transformVariation_amended_spec :
    (∀ (item : SquareCatalogItem) (rel : List SquareCatalogObject),
      (transformCatalogItem item rel).variations
        = (item.item_data.variations.getD []).map transformVariation)
    ∧ (∀ (v : SquareCatalogVariation),
        (transformVariation v).priceDollars
            = (((v.item_variation_data.price_money.map
                SquareMoney.amount).getD 0 : Nat) : ℚ) / 100
          ∧ (transformVariation v).priceDollars * 100
              = (((v.item_variation_data.price_money.map
                  SquareMoney.amount).getD 0 : Nat) : ℚ)
          ∧ (transformVariation v).priceFormatted
              = formatPrice ((v.item_variation_data.price_money.map
                  SquareMoney.amount).getD 0))
    ∧ (∀ (v1 v2 : SquareCatalogVariation),
        (v1.item_variation_data.price_money.map SquareMoney.amount).getD 0
            = (v2.item_variation_data.price_money.map SquareMoney.amount).getD 0 →
        (transformVariation v1).priceDollars
            = (transformVariation v2).priceDollars
          ∧ (transformVariation v1).priceFormatted
              = (transformVariation v2).priceFormatted)
    ∧ formatPrice 1250 = "$12.50" ∧ formatPrice 0 = "$0.00" := by
  refine ⟨?_, ?_, ?_, by decide, by decide⟩
  · intro item rel
    rfl
  · intro v
    refine ⟨rfl, ?_, rfl⟩
    show ((((v.item_variation_data.price_money.map
      SquareMoney.amount).getD 0 : Nat) : ℚ) / 100) * 100
        = (((v.item_variation_data.price_money.map
          SquareMoney.amount).getD 0 : Nat) : ℚ)
    field_simp
  · intro v1 v2 h
    constructor
    · show (((v1.item_variation_data.price_money.map
        SquareMoney.amount).getD 0 : Nat) : ℚ) / 100
          = (((v2.item_variation_data.price_money.map
            SquareMoney.amount).getD 0 : Nat) : ℚ) / 100
      rw [h]
    · show formatPrice ((v1.item_variation_data.price_money.map
        SquareMoney.amount).getD 0)
          = formatPrice ((v2.item_variation_data.price_money.map
            SquareMoney.amount).getD 0)
      rw [h]

-- ── C4: category name resolution ──

/-- C4 counterexample: an item whose category reference is the empty string is
resolved to Uncategorized even though a regular-kind category with exactly that
ID (named A) sits in related objects, refuting the claim that the name of the
first matching regular-kind category is used. -/
theorem findCategoryName_claim_counterexample :
    ¬ C4Statement c4CexItem c4CexRel := by decide

/-- C4 amended: an item with an absent or empty category reference resolves to
Uncategorized without any lookup; an item with a non-empty reference resolves
to the name of the first category whose ID matches and whose kind field is
absent, empty, or the regular kind, with Uncategorized only when no such
object exists. -/
theorem transformCatalogItem_category_spec :
    ∀ (item : SquareCatalogItem) (rel : List SquareCatalogObject),
      (truthyStr item.item_data.category_id = false →
        (transformCatalogItem item rel).category = "Uncategorized")
      ∧ (∀ cid, item.item_data.category_id = some cid → cid ≠ "" →
          (transformCatalogItem item rel).category
            = match codeFindCategory cid rel with
              | some c => c.category_data.name
              | none => "Uncategorized") := by
  intro item rel
  constructor
  · intro h
    rcases hcid : item.item_data.category_id with _ | cid
    · simp [transformCatalogItem, hcid]
    · rw [hcid] at h
      simp only [truthyStr] at h
      have : cid = "" := by simpa using h
      simp [transformCatalogItem, hcid, this]
  · intro cid hcid hne
    simp only [transformCatalogItem, hcid, if_pos hne]
    rw [findCategoryName_eq]
    rcases codeFindCategory cid rel with _ | c <;> rfl

/-- C4 witness: a concrete resolvable reference yields the category name. -/
theorem transformCatalogItem_category_spec_witness :
    (transformCatalogItem (plainItem "I" (some "C"))
      [plainCategory "C" "Pizza"]).category = "Pizza" := by
  have h := (transformCatalogItem_category_spec (plainItem "I" (some "C"))
    [plainCategory "C" "Pizza"]).2 "C" rfl (by decide)
  exact h.trans (by decide)

/-- C9 witness: two variations with the same 500-cent price produce the same
derived price fields. -/
theorem transformVariation_amended_spec_witness :
    (transformVariation ⟨"Va", ⟨"A", "FIXED_PRICING", some ⟨500, "USD"⟩⟩⟩).priceFormatted
      = (transformVariation ⟨"Vb", ⟨"B", "FIXED_PRICING", some ⟨500, "USD"⟩⟩⟩).priceFormatted :=
  (transformVariation_amended_spec.2.2.1
    ⟨"Va", ⟨"A", "FIXED_PRICING", some ⟨500, "USD"⟩⟩⟩
    ⟨"Vb", ⟨"B", "FIXED_PRICING", some ⟨500, "USD"⟩⟩⟩ rfl).2

-- ── C1: grouping by resolved category name ──

theorem noDupKeys_map_fst_nodup {α : Type} (m : List (String × α))
    (h : NoDupKeys m) : (m.map Prod.fst).Nodup :=
  List.pairwise_map.mpr h

theorem groupItemsByCategory_eq (items : List SquareCatalogItem)
    (rel : List SquareCatalogObject) :
    groupItemsByCategory items rel
      = List.insertionSort groupLe
          ((groupMenuItems
            (items.map (fun it => transformCatalogItem it rel))).map
            (fun p => ⟨p.1, findGroupCategoryId p.1 rel, p.2⟩)) := rfl

theorem mem_groupItemsByCategory_iff (items : List SquareCatalogItem)
    (rel : List SquareCatalogObject) (g : CategoryGroup) :
    g ∈ groupItemsByCategory items rel
      ↔ ∃ p ∈ groupMenuItems
            (items.map (fun it => transformCatalogItem it rel)),
          g = ⟨p.1, findGroupCategoryId p.1 rel, p.2⟩ := by
  rw [groupItemsByCategory_eq, (perm_groupSort _).mem_iff, List.mem_map]
  constructor
  · rintro ⟨p, hp, h⟩
    exact ⟨p, hp, h.symm⟩
  · rintro ⟨p, hp, h⟩
    exact ⟨p, hp, h.symm⟩

/-- C1 counterexample: with a regular-kind category named A carrying the empty
ID listed before another category named A with ID C, the group named A gets the
sentinel `uncategorized` rather than the ID of the first matching category,
refuting the claim as stated. -/
theorem groupItemsByCategory_claim_counterexample :
    ¬ C1Statement c1CexItems c1CexRel := by decide

/-- C1 amended: `groupItemsByCategory` groups the transformed items by
resolved display name preserving input order inside each group, assigns each
group the ID of the first category whose kind field is absent, empty, or
regular and whose name matches, falling back to the sentinel `uncategorized`
when there is no such category or its ID is the empty string, and returns the
groups sorted ascending by name under the modelled locale comparison, with
exactly the resolved names as group names. -/
theorem groupItemsByCategory_amended_spec :
    ∀ (items : List SquareCatalogItem) (rel : List SquareCatalogObject),
      List.Sorted groupLe (groupItemsByCategory items rel)
      ∧ (∀ g ∈ groupItemsByCategory items rel,
          g.items = (items.map (fun it => transformCatalogItem it rel)).filter
            (fun m => m.category == g.category))
      ∧ (∀ g ∈ groupItemsByCategory items rel,
          g.categoryId =
            match codeFindCategoryByName g.category rel with
            | some c => if c.id = "" then "uncategorized" else c.id
            | none => "uncategorized")
      ∧ ((groupItemsByCategory items rel).map CategoryGroup.category).Nodup
      ∧ (∀ m ∈ items.map (fun it => transformCatalogItem it rel),
          ∃ g ∈ groupItemsByCategory items rel, g.category = m.category)
      ∧ (∀ g ∈ groupItemsByCategory items rel,
          ∃ m ∈ items.map (fun it => transformCatalogItem it rel),
            m.category = g.category) := by
  intro items rel
  refine ⟨?_, ?_, ?_, ?_, ?_, ?_⟩
  · rw [groupItemsByCategory_eq]
    exact sorted_groupSort _
  · intro g hg
    rcases (mem_groupItemsByCategory_iff items rel g).mp hg with ⟨⟨k, l⟩, hp, rfl⟩
    exact (groupMenuItems_mem_char _ k l hp).1
  · intro g hg
    rcases (mem_groupItemsByCategory_iff items rel g).mp hg with ⟨⟨k, l⟩, hp, rfl⟩
    exact findGroupCategoryId_eq k rel
  · rw [groupItemsByCategory_eq]
    have h1 := (perm_groupSort
      ((groupMenuItems
        (items.map (fun it => transformCatalogItem it rel))).map
        (fun p => (⟨p.1, findGroupCategoryId p.1 rel, p.2⟩ : CategoryGroup)))).map
      CategoryGroup.category
    refine (h1.nodup_iff).mpr ?_
    rw [List.map_map]
    exact noDupKeys_map_fst_nodup _
      (noDupKeys_groupMenuItems
        (items.map (fun it => transformCatalogItem it rel)))
  · intro m hm
    rcases groupMenuItems_covers _ m hm with ⟨l, hin, hml⟩
    exact ⟨⟨m.category, findGroupCategoryId m.category rel, l⟩,
      (mem_groupItemsByCategory_iff items rel _).mpr ⟨(m.category, l), hin, rfl⟩,
      rfl⟩
  · intro g hg
    rcases (mem_groupItemsByCategory_iff items rel g).mp hg with ⟨⟨k, l⟩, hp, rfl⟩
    rcases groupMenuItems_mem_char _ k l hp with ⟨hfil, hne⟩
    obtain ⟨x, hx⟩ := List.exists_mem_of_ne_nil l hne
    rw [hfil] at hx
    rcases List.mem_filter.mp hx with ⟨hxm, hxc⟩
    exact ⟨x, hxm, by simpa using hxc⟩

/-- C1 witness: the Zebra/Apple scenario, instantiated at the Apple group. -/
theorem groupItemsByCategory_amended_spec_witness :
    zaAppleGroup ∈ groupItemsByCategory zaItems zaRel
      ∧ zaAppleGroup.items
          = (zaItems.map (fun it => transformCatalogItem it zaRel)).filter
              (fun m => m.category == zaAppleGroup.category) :=
  ⟨by decide,
    (groupItemsByCategory_amended_spec zaItems zaRel).2.1 zaAppleGroup
      (by decide)⟩

-- ── C3: categories with counts ──

theorem extendCount_none (n : Nat) :
    extendCount none n = if n = 0 then none else some n := by
  cases n <;> simp [extendCount]

theorem extractCategories_eq (rel : List SquareCatalogObject)
    (items : List SquareCatalogItem) :
    extractCategoriesFromRelatedObjects rel items
      = List.insertionSort catLe
          ((countCategoryRefs items).map
            (fun p =>
              match mapGet (buildCategoryMap rel) p.1 with
              | some name =>
                  if name ≠ "" then ⟨p.1, name, p.2⟩
                  else ⟨p.1, "Unknown Category", p.2⟩
              | none => ⟨p.1, "Unknown Category", p.2⟩)) := rfl

theorem mem_extractCategories_iff (rel : List SquareCatalogObject)
    (items : List SquareCatalogItem) (e : Category) :
    e ∈ extractCategoriesFromRelatedObjects rel items
      ↔ ∃ p ∈ countCategoryRefs items,
          e = match mapGet (buildCategoryMap rel) p.1 with
              | some name =>
                  if name ≠ "" then ⟨p.1, name, p.2⟩
                  else ⟨p.1, "Unknown Category", p.2⟩
              | none => ⟨p.1, "Unknown Category", p.2⟩ := by
  rw [extractCategories_eq, (perm_catSort _).mem_iff, List.mem_map]
  constructor
  · rintro ⟨p, hp, h⟩
    exact ⟨p, hp, h.symm⟩
  · rintro ⟨p, hp, h⟩
    exact ⟨p, hp, h.symm⟩

theorem extractCategories_entry_id (rel : List SquareCatalogObject)
    (p : String × Nat) :
    (match mapGet (buildCategoryMap rel) p.1 with
      | some name =>
          if name ≠ "" then (⟨p.1, name, p.2⟩ : Category)
          else ⟨p.1, "Unknown Category", p.2⟩
      | none => ⟨p.1, "Unknown Category", p.2⟩).id = p.1 := by
  rcases mapGet (buildCategoryMap rel) p.1 with _ | n
  · rfl
  · by_cases hn : n ≠ "" <;> simp [hn]

theorem extractCategories_entry_count (rel : List SquareCatalogObject)
    (p : String × Nat) :
    (match mapGet (buildCategoryMap rel) p.1 with
      | some name =>
          if name ≠ "" then (⟨p.1, name, p.2⟩ : Category)
          else ⟨p.1, "Unknown Category", p.2⟩
      | none => ⟨p.1, "Unknown Category", p.2⟩).item_count = p.2 := by
  rcases mapGet (buildCategoryMap rel) p.1 with _ | n
  · rfl
  · by_cases hn : n ≠ "" <;> simp [hn]

/-- C3 counterexample: an item referencing the empty-string category ID is a
category reference with one qualifying item, yet the output carries no entry
for it, refuting the claim that every referenced category ID yields exactly
one entry. -/
theorem extractCategories_claim_counterexample :
    ¬ C3Statement [] c3CexItems := by
  intro h
  have h3 := (h.2.2.1 "").mp ⟨plainItem "I" (some ""), by decide, rfl⟩
  rcases h3 with ⟨e, he, -⟩
  have hnil : extractCategoriesFromRelatedObjects [] c3CexItems = [] := by
    decide
  rw [hnil] at he
  simp at he

/-- C3 amended: `extractCategoriesFromRelatedObjects` emits exactly one entry
per non-empty category ID referenced by at least one item, counting exactly
the referencing items; the entry name is the name of the last category in
related objects whose kind field is absent, empty, or regular and whose ID
matches, with `Unknown Category` when there is no such category or its name is
empty; entries are sorted ascending by name under the modelled locale
comparison. -/
theorem extractCategories_amended_spec :
    ∀ (rel : List SquareCatalogObject) (items : List SquareCatalogItem),
      List.Sorted catLe (extractCategoriesFromRelatedObjects rel items)
      ∧ ((extractCategoriesFromRelatedObjects rel items).map Category.id).Nodup
      ∧ (∀ cid,
          (cid ≠ "" ∧ ∃ it ∈ items, it.item_data.category_id = some cid)
            ↔ ∃ e ∈ extractCategoriesFromRelatedObjects rel items, e.id = cid)
      ∧ (∀ e ∈ extractCategoriesFromRelatedObjects rel items,
          e.item_count = refCount items e.id
            ∧ 0 < e.item_count
            ∧ e.name =
                match (qualifyingCategoryNames rel e.id).getLast? with
                | some n => if n = "" then "Unknown Category" else n
                | none => "Unknown Category") := by
  intro rel items
  refine ⟨?_, ?_, ?_, ?_⟩
  · rw [extractCategories_eq]
    exact sorted_catSort _
  · rw [extractCategories_eq]
    have h1 := (perm_catSort
      ((countCategoryRefs items).map
        (fun p =>
          match mapGet (buildCategoryMap rel) p.1 with
          | some name =>
              if name ≠ "" then (⟨p.1, name, p.2⟩ : Category)
              else ⟨p.1, "Unknown Category", p.2⟩
          | none => ⟨p.1, "Unknown Category", p.2⟩))).map Category.id
    refine h1.nodup_iff.mpr ?_
    rw [List.map_map]
    have h2 : List.map
        (Category.id ∘
          (fun p =>
            match mapGet (buildCategoryMap rel) p.1 with
            | some name =>
                if name ≠ "" then (⟨p.1, name, p.2⟩ : Category)
                else ⟨p.1, "Unknown Category", p.2⟩
            | none => ⟨p.1, "Unknown Category", p.2⟩))
        (countCategoryRefs items)
        = List.map Prod.fst (countCategoryRefs items) :=
      List.map_congr_left (fun p _ => extractCategories_entry_id rel p)
    rw [h2]
    exact noDupKeys_map_fst_nodup _ (noDupKeys_countCategoryRefs items)
  · intro cid
    constructor
    · rintro ⟨hne, it, hitm, hcid⟩
      have hpos : 0 < refCount items cid := by
        unfold refCount
        have : it ∈ items.filter
            (fun x => x.item_data.category_id == some cid) :=
          List.mem_filter.mpr ⟨hitm, by simp [hcid]⟩
        exact List.length_pos.mpr (fun hnil => by rw [hnil] at this; simp at this)
      have hget : mapGet (countCategoryRefs items) cid
          = some (refCount items cid) := by
        rw [mapGet_countCategoryRefs items cid hne, extendCount_none,
          if_neg (by omega)]
      have hmem := mem_of_mapGet_eq_some _ _ _ hget
      refine ⟨_, (mem_extractCategories_iff rel items _).mpr
        ⟨(cid, refCount items cid), hmem, rfl⟩, ?_⟩
      exact extractCategories_entry_id rel (cid, refCount items cid)
    · rintro ⟨e, he, heid⟩
      rcases (mem_extractCategories_iff rel items e).mp he with ⟨p, hp, rfl⟩
      rw [extractCategories_entry_id rel p] at heid
      subst heid
      have hget := mapGet_eq_some_of_mem _ _ _
        (noDupKeys_countCategoryRefs items) hp
      by_cases hne : p.1 = ""
      · rw [hne] at hget
        rw [mapGet_countCategoryRefs_empty items] at hget
        exact absurd hget (by simp)
      · refine ⟨hne, ?_⟩
        rw [mapGet_countCategoryRefs items p.1 hne, extendCount_none] at hget
        by_cases h0 : refCount items p.1 = 0
        · rw [if_pos h0] at hget; exact absurd hget (by simp)
        · have hpos : 0 < (items.filter
              (fun x => x.item_data.category_id == some p.1)).length := by
            unfold refCount at h0
            omega
          obtain ⟨x, hx⟩ := List.exists_mem_of_ne_nil _
            (by intro hnil
                rw [List.length_pos] at hpos
                exact hpos hnil)
          rcases List.mem_filter.mp hx with ⟨hxm, hxc⟩
          exact ⟨x, hxm, by simpa using hxc⟩
  · intro e he
    rcases (mem_extractCategories_iff rel items e).mp he with ⟨p, hp, rfl⟩
    have hget := mapGet_eq_some_of_mem _ _ _
      (noDupKeys_countCategoryRefs items) hp
    have hne : p.1 ≠ "" := by
      intro hcon
      rw [hcon, mapGet_countCategoryRefs_empty items] at hget
      exact absurd hget (by simp)
    rw [mapGet_countCategoryRefs items p.1 hne, extendCount_none] at hget
    have hcount : p.2 = refCount items p.1 ∧ refCount items p.1 ≠ 0 := by
      by_cases h0 : refCount items p.1 = 0
      · rw [if_pos h0] at hget; exact absurd hget (by simp)
      · rw [if_neg h0] at hget
        exact ⟨(Option.some.inj hget).symm, h0⟩
    refine ⟨?_, ?_, ?_⟩
    · rw [extractCategories_entry_count rel p,
        extractCategories_entry_id rel p]
      exact hcount.1
    · rw [extractCategories_entry_count rel p]
      omega
    · rw [extractCategories_entry_id rel p]
      have hb := mapGet_buildCategoryMap rel p.1
      rw [hb]
      rcases hq : (qualifyingCategoryNames rel p.1).getLast? with _ | n
      · rfl
      · by_cases hn : n = "" <;> simp [hn]

/-- C3 witness: the missing-category scenario, instantiated at its entry. -/
theorem extractCategories_amended_spec_witness :
    (⟨"MISSING", "Unknown Category", 1⟩ : Category)
        ∈ extractCategoriesFromRelatedObjects [] missItems
      ∧ (⟨"MISSING", "Unknown Category", 1⟩ : Category).item_count
          = refCount missItems
              (⟨"MISSING", "Unknown Category", 1⟩ : Category).id :=
  ⟨by decide,
    ((extractCategories_amended_spec [] missItems).2.2.2 _ (by decide)).1⟩

-- ── C10: uncategorized items diverge between the two views ──

theorem sumItemCounts_extract (rel : List SquareCatalogObject)
    (items : List SquareCatalogItem) :
    sumItemCounts (extractCategoriesFromRelatedObjects rel items)
      = (items.filter (fun it => truthyStr it.item_data.category_id)).length := by
  unfold sumItemCounts
  rw [extractCategories_eq]
  have hperm := (perm_catSort
    ((countCategoryRefs items).map
      (fun p =>
        match mapGet (buildCategoryMap rel) p.1 with
        | some name =>
            if name ≠ "" then (⟨p.1, name, p.2⟩ : Category)
            else ⟨p.1, "Unknown Category", p.2⟩
        | none => ⟨p.1, "Unknown Category", p.2⟩))).map Category.item_count
  rw [hperm.sum_eq, List.map_map]
  have h2 : List.map
      (Category.item_count ∘
        (fun p =>
          match mapGet (buildCategoryMap rel) p.1 with
          | some name =>
              if name ≠ "" then (⟨p.1, name, p.2⟩ : Category)
              else ⟨p.1, "Unknown Category", p.2⟩
          | none => ⟨p.1, "Unknown Category", p.2⟩))
      (countCategoryRefs items)
      = List.map Prod.snd (countCategoryRefs items) :=
    List.map_congr_left (fun p _ => extractCategories_entry_count rel p)
  rw [h2]
  have h3 := sumValuesN_countCategoryRefs items
  unfold sumValuesN at h3
  exact h3

theorem totalGroupedItems_eq (items : List SquareCatalogItem)
    (rel : List SquareCatalogObject) :
    totalGroupedItems (groupItemsByCategory items rel) = items.length := by
  unfold totalGroupedItems
  rw [groupItemsByCategory_eq]
  have hperm := (perm_groupSort
    ((groupMenuItems
      (items.map (fun it => transformCatalogItem it rel))).map
      (fun p => (⟨p.1, findGroupCategoryId p.1 rel, p.2⟩ : CategoryGroup)))).map
    (fun g : CategoryGroup => g.items.length)
  rw [hperm.sum_eq, List.map_map]
  have h2 : List.map
      ((fun g : CategoryGroup => g.items.length) ∘
        (fun p => (⟨p.1, findGroupCategoryId p.1 rel, p.2⟩ : CategoryGroup)))
      (groupMenuItems (items.map (fun it => transformCatalogItem it rel)))
      = List.map (fun p => p.2.length)
          (groupMenuItems (items.map (fun it => transformCatalogItem it rel))) :=
    List.map_congr_left (fun p _ => rfl)
  rw [h2]
  have h3 := sumLens_groupMenuItems
    (items.map (fun it => transformCatalogItem it rel))
  unfold sumLens at h3
  rw [h3, List.length_map]

/-- C10: an item with no category reference lands in the Uncategorized group
of the full catalog but contributes to no categories-with-counts entry, so the
count total is strictly below the grouped item total and the two views
disagree about uncategorized items. -/
theorem uncategorized_divergence_spec :
    ∀ (items : List SquareCatalogItem) (rel : List SquareCatalogObject)
      (item : SquareCatalogItem),
      item ∈ items → item.item_data.category_id = none →
      (∃ g ∈ groupItemsByCategory items rel,
          g.category = "Uncategorized"
            ∧ transformCatalogItem item rel ∈ g.items)
      ∧ sumItemCounts (extractCategoriesFromRelatedObjects rel items)
          = (items.filter (fun it => truthyStr it.item_data.category_id)).length
      ∧ totalGroupedItems (groupItemsByCategory items rel) = items.length
      ∧ sumItemCounts (extractCategoriesFromRelatedObjects rel items)
          < totalGroupedItems (groupItemsByCategory items rel) := by
  intro items rel item hmem hcid
  have hcat : (transformCatalogItem item rel).category = "Uncategorized" := by
    simp [transformCatalogItem, hcid]
  have hsum := sumItemCounts_extract rel items
  have htot := totalGroupedItems_eq items rel
  refine ⟨?_, hsum, htot, ?_⟩
  · have hmm : transformCatalogItem item rel
        ∈ items.map (fun it => transformCatalogItem it rel) :=
      List.mem_map.mpr ⟨item, hmem, rfl⟩
    rcases groupMenuItems_covers _ _ hmm with ⟨l, hin, hml⟩
    refine ⟨⟨(transformCatalogItem item rel).category,
      findGroupCategoryId (transformCatalogItem item rel).category rel, l⟩,
      (mem_groupItemsByCategory_iff items rel _).mpr
        ⟨((transformCatalogItem item rel).category, l), hin, rfl⟩,
      hcat, hml⟩
  · rw [hsum, htot]
    apply List.length_filter_lt_length_iff_exists.mpr
    exact ⟨item, hmem, by simp [hcid, truthyStr]⟩

/-- C10 witness: one uncategorized item, zero counted categories. -/
theorem uncategorized_divergence_spec_witness :
    sumItemCounts (extractCategoriesFromRelatedObjects [] [plainItem "I" none])
      < totalGroupedItems (groupItemsByCategory [plainItem "I" none] []) :=
  (uncategorized_divergence_spec [plainItem "I" none] [] (plainItem "I" none)
    (by decide) rfl).2.2.2

end PerDiem
